import Mathlib

/-!
Verification of the indexing reconciliation and job-execution subsystem of the
vibe_coding_RAG backend.

The definitions below are a shallow embedding of:
  * the catalog schema of `backend/db_models.py` (`Document`, `IndexJob`, the
    three status/type enumerations, and the `unique=True` constraint on
    `documents.source_path`);
  * the reconciliation pass `reconcile_indexes` of `backend/main.py`
    (lines 868-1035);
  * the job worker `run_index_worker` of `backend/main.py` (lines 1038-1108);
  * the caller-level duplicate check `check_duplicate_file` of
    `backend/main.py` (lines 56-81).

Modelling conventions: timestamps (`datetime`) are natural numbers; the random
`uuid.uuid4` primary keys are modelled by two monotone counters `nextDocId`
and `nextJobId` (only freshness and distinctness of ids matter); file contents
are represented by their fingerprints (size, mtime, md5 checksum), so the
filesystem scan of the upload directory is an input list of `FileMeta` whose
`source_path` fields stand for the joined absolute paths and are pairwise
distinct (distinct directory entries); the external collaborators
(`os.path.exists`, `document_processor.process_pdf`,
`document_processor.cleanup_document`) are boolean oracles in `WorkerEnv`.
-/

set_option linter.unusedSectionVars false
set_option linter.unusedVariables false
set_option linter.unusedTactic false

namespace RagIndex

/-- `DocumentStatus` of `backend/db_models.py`. -/
inductive DocumentStatus
  | pending
  | indexing
  | indexed
  | reindexing
  | failed
  | deleted
deriving DecidableEq, Repr

/-- `IndexJobType` of `backend/db_models.py`. -/
inductive IndexJobType
  | index
  | reindex
  | delete
deriving DecidableEq, Repr

/-- `IndexJobStatus` of `backend/db_models.py`. -/
inductive IndexJobStatus
  | queued
  | running
  | succeeded
  | failed
deriving DecidableEq, Repr

/-- One scanned upload-directory file together with its fingerprint, as built
by the scan loop of `reconcile_indexes` (size and mtime from `os.stat`, md5
checksum streamed over the content). -/
structure FileMeta where
  source_path : String
  file_size : Nat
  mtime : Nat
  checksum : String
deriving DecidableEq, Repr

/-- A row of the `documents` table (`backend/db_models.py`). -/
structure Document where
  id : Nat
  source_path : String
  filename : Option String
  file_size : Nat
  mtime : Nat
  checksum : String
  status : DocumentStatus
  chroma_collection : Option String
  version : Nat
  created_at : Nat
  updated_at : Nat
deriving DecidableEq, Repr

/-- A row of the `index_jobs` table (`backend/db_models.py`). -/
structure IndexJob where
  id : Nat
  document_id : Nat
  job_type : IndexJobType
  job_status : IndexJobStatus
  error_message : Option String
  created_at : Nat
  finished_at : Option Nat
deriving DecidableEq, Repr

/-- The relational store: the two tables plus the id-allocation counters that
model `uuid.uuid4` primary-key generation. -/
structure DBState where
  docs : List Document
  jobs : List IndexJob
  nextDocId : Nat
  nextJobId : Nat
deriving DecidableEq, Repr

/-- Models `uuid.uuid5(uuid.NAMESPACE_URL, source_path)`: a deterministic
derivation of a stable identity from the source path.  The claims rely only on
the derivation being a function of the path. -/
def uuid5 (path : String) : String := "uuid5:" ++ path

/-- `db_by_path.get(path)` where `db_by_path = {doc.source_path: doc ...}`;
with pairwise-distinct source paths (the `unique=True` constraint) the dict
lookup coincides with a first-match search. -/
def findByPath (docs : List Document) (path : String) : Option Document :=
  docs.find? (fun d => d.source_path == path)

/-- `db.query(Document).get(document_id)`: primary-key lookup. -/
def findDoc (docs : List Document) (i : Nat) : Option Document :=
  docs.find? (fun d => d.id == i)

/-- The scan filter `name.lower().endswith('.pdf')` of `reconcile_indexes`,
expressed on the path's character list (semantically `toLower`/`endsWith`,
but stated on `String.data` so that it evaluates by kernel reduction). -/
def isPdf (m : FileMeta) : Bool :=
  List.isSuffixOf ".pdf".data (m.source_path.data.map Char.toLower)

/-- `expected_collection = doc.chroma_collection or f"document_{uuid5(path)}"`
(Python `or`: both `None` and the empty string fall through to the computed
name; `uuid.uuid5` on a string never raises, so the `except` is vacuous). -/
def expectedCollection (d : Document) : String :=
  match d.chroma_collection with
  | some s => if s == "" then "document_" ++ uuid5 d.source_path else s
  | none => "document_" ++ uuid5 d.source_path

/-- The change test of `reconcile_indexes` line 917:
`doc.file_size != meta["file_size"] or doc.checksum != meta["checksum"]`. -/
def changedB (d : Document) (m : FileMeta) : Bool :=
  d.file_size != m.file_size || d.checksum != m.checksum

/-- The drift test of `reconcile_indexes` lines 941-948: an `indexed` document
whose (truthy) expected collection name is absent from the live set. -/
def driftB (collections : List String) (d : Document) : Bool :=
  d.status == .indexed &&
    (expectedCollection d != "" && !(collections.contains (expectedCollection d)))

/-- An element of the `to_reindex` work list: the target document's id together
with the `meta` dict's `file_size`/`mtime`/`checksum` values (captured at diff
time). -/
structure ReindexEntry where
  docId : Nat
  source_path : String
  file_size : Nat
  mtime : Nat
  checksum : String
deriving DecidableEq, Repr

/-- `to_index`: scanned files whose path is absent from the catalog. -/
def toIndexList (docs : List Document) (localFiles : List FileMeta) : List FileMeta :=
  localFiles.filter (fun m => (findByPath docs m.source_path).isNone)

/-- The per-file body of the change-detection loop (lines 912-918): a found,
changed document yields a `(doc, meta)` work item. -/
def changeEntry (docs : List Document) (m : FileMeta) : Option ReindexEntry :=
  match findByPath docs m.source_path with
  | none => none
  | some d =>
      if changedB d m then
        some ⟨d.id, m.source_path, m.file_size, m.mtime, m.checksum⟩
      else none

/-- The change-detection contribution to `to_reindex` (lines 912-918). -/
def toReindexChanged (docs : List Document) (localFiles : List FileMeta) :
    List ReindexEntry :=
  localFiles.filterMap (changeEntry docs)

/-- `path in local_paths` for a catalog path. -/
def onDisk (localFiles : List FileMeta) (path : String) : Bool :=
  localFiles.any (fun m => m.source_path == path)

/-- `to_delete` (lines 920-924): non-deleted catalog rows whose path vanished
from disk.  The source iterates the set difference `db_paths - local_paths`
and looks each path up in `db_by_path`; with pairwise-distinct source paths
this is the same as filtering the rows. -/
def toDeleteList (docs : List Document) (localFiles : List FileMeta) : List Document :=
  docs.filter (fun d => !onDisk localFiles d.source_path && d.status != .deleted)

/-- The per-document body of the drift loop (lines 940-955); the `meta` fields
are the document's stored values, read at diff time. -/
def driftEntry (collections : List String) (d : Document) : Option ReindexEntry :=
  if driftB collections d then
    some ⟨d.id, d.source_path, d.file_size, d.mtime, d.checksum⟩
  else none

/-- The index-drift contribution to `to_reindex` (lines 940-955). -/
def toDriftList (collections : List String) (docs : List Document) :
    List ReindexEntry :=
  docs.filterMap (driftEntry collections)

/-- `chroma_missing`: source paths of drifted documents (line 955). -/
def chromaMissingList (collections : List String) (docs : List Document) :
    List String :=
  docs.filterMap (fun d =>
    if driftB collections d then some d.source_path else none)

/-- The `Document(...)` constructed for a new file (lines 963-973): status
`pending`, no collection, version 1. -/
def mkNewDoc (now : Nat) (i : Nat) (m : FileMeta) : Document :=
  { id := i, source_path := m.source_path, filename := none,
    file_size := m.file_size, mtime := m.mtime, checksum := m.checksum,
    status := .pending, chroma_collection := none, version := 1,
    created_at := now, updated_at := now }

/-- An `IndexJob(...)` row as enqueued by `reconcile_indexes`: status `queued`,
stamped with the current time, no error, not finished. -/
def mkJob (i docId : Nat) (t : IndexJobType) (now : Nat) : IndexJob :=
  { id := i, document_id := docId, job_type := t, job_status := .queued,
    error_message := none, created_at := now, finished_at := none }

/-- One iteration of the `for meta in to_index` loop (lines 962-984). -/
def applyNewDoc (now : Nat) (st : DBState) (m : FileMeta) : DBState :=
  { docs := st.docs ++ [mkNewDoc now st.nextDocId m],
    jobs := st.jobs ++ [mkJob st.nextJobId st.nextDocId .index now],
    nextDocId := st.nextDocId + 1, nextJobId := st.nextJobId + 1 }

/-- The row mutation of the `for doc, meta in to_reindex` loop (lines
986-991), applied to the row whose primary key matches. -/
def reindexDoc (now : Nat) (e : ReindexEntry) (d : Document) : Document :=
  if d.id == e.docId then
    { d with file_size := e.file_size, mtime := e.mtime, checksum := e.checksum,
             status := .reindexing, updated_at := now }
  else d

/-- One iteration of the `for doc, meta in to_reindex` loop (lines 986-1000). -/
def applyReindex (now : Nat) (st : DBState) (e : ReindexEntry) : DBState :=
  { st with docs := st.docs.map (reindexDoc now e),
            jobs := st.jobs ++ [mkJob st.nextJobId e.docId .reindex now],
            nextJobId := st.nextJobId + 1 }

/-- The row mutation of the `for doc in to_delete` loop (lines 1002-1004). -/
def deleteDoc (now : Nat) (i : Nat) (d : Document) : Document :=
  if d.id == i then { d with status := .deleted, updated_at := now } else d

/-- One iteration of the `for doc in to_delete` loop (lines 1002-1013). -/
def applyDelete (now : Nat) (st : DBState) (dd : Document) : DBState :=
  { st with docs := st.docs.map (deleteDoc now dd.id),
            jobs := st.jobs ++ [mkJob st.nextJobId dd.id .delete now],
            nextJobId := st.nextJobId + 1 }

/-- The response summary of `reconcile_indexes` (lines 1017-1035). -/
structure Summary where
  local_files : Nat
  db_records : Nat
  to_index : Nat
  to_reindex : Nat
  to_delete : Nat
  chroma_missing : Nat
  created : Nat
  updated : Nat
  enqueued : Nat
  sample_index : List String
  sample_reindex : List String
  sample_delete : List String
  sample_chroma_missing : List String
deriving DecidableEq, Repr

/-- The reconciliation pass `reconcile_indexes` of `backend/main.py`
(lines 868-1035).  Inputs: the current time, the live vector-collection name
set (an empty list also models a failing `list_collections`, which the source
degrades to the empty set), the upload-directory scan, and the relational
state. -/
def reconcile (now : Nat) (collections : List String) (disk : List FileMeta)
    (st : DBState) : DBState × Summary :=
  let localFiles := disk.filter isPdf
  let toIndex := toIndexList st.docs localFiles
  let toReindex := toReindexChanged st.docs localFiles ++ toDriftList collections st.docs
  let toDelete := toDeleteList st.docs localFiles
  let chromaMissing := chromaMissingList collections st.docs
  let st1 := toIndex.foldl (applyNewDoc now) st
  let st2 := toReindex.foldl (applyReindex now) st1
  let st3 := toDelete.foldl (applyDelete now) st2
  (st3,
   { local_files := localFiles.length,
     db_records := st.docs.length,
     to_index := toIndex.length,
     to_reindex := toReindex.length,
     to_delete := toDelete.length,
     chroma_missing := chromaMissing.length,
     created := toIndex.length,
     updated := toReindex.length + toDelete.length,
     enqueued := toIndex.length + toReindex.length + toDelete.length,
     sample_index := (toIndex.map (fun m => m.source_path)).take 5,
     sample_reindex := (toReindex.map (fun e => e.source_path)).take 5,
     sample_delete := (toDelete.map (fun d => d.source_path)).take 5,
     sample_chroma_missing := chromaMissing.take 5 })

/-- The external collaborators consumed by the worker, as boolean oracles:
`fsExists path` models `os.path.exists`, `procOk path` models
`document_processor.process_pdf` completing without raising, and
`cleanupOk stableId` models `document_processor.cleanup_document` completing
without raising. -/
structure WorkerEnv where
  fsExists : String → Bool
  procOk : String → Bool
  cleanupOk : String → Bool

/-- The per-job body of `run_index_worker` (lines 1057-1101).  Returns the
document table after the job, the job row's final value, and the increments of
the `processed`/`succeeded`/`failed` counters.  A job whose document row is
missing takes the `continue` branch: it is failed with "Document not found"
and skips the `try`/`finally`, so `processed` is not incremented.  The
transient `running` state committed at line 1068 is always overwritten by a
terminal state before the job's final commit. -/
def processJob (env : WorkerEnv) (now : Nat) (docs : List Document)
    (job : IndexJob) : List Document × IndexJob × Nat × Nat × Nat :=
  match findDoc docs job.document_id with
  | none =>
      (docs,
       { job with job_status := .failed,
                  error_message := some "Document not found",
                  finished_at := some now },
       0, 0, 1)
  | some doc =>
      if job.job_type == .delete then
        if env.cleanupOk (uuid5 doc.source_path) then
          (docs.map (fun d =>
             if d.id == doc.id then
               { d with status := .deleted, updated_at := now }
             else d),
           { job with job_status := .succeeded, finished_at := some now },
           1, 1, 0)
        else
          (docs,
           { job with job_status := .failed,
                      error_message := some "cleanup failed",
                      finished_at := some now },
           1, 0, 1)
      else
        if !(env.fsExists doc.source_path) then
          (docs,
           { job with job_status := .failed,
                      error_message := some ("file not found: " ++ doc.source_path),
                      finished_at := some now },
           1, 0, 1)
        else if env.procOk doc.source_path then
          (docs.map (fun d =>
             if d.id == doc.id then
               { d with status := .indexed,
                        chroma_collection := some ("document_" ++ uuid5 doc.source_path),
                        version := d.version + 1, updated_at := now }
             else d),
           { job with job_status := .succeeded, finished_at := some now },
           1, 1, 0)
        else
          (docs,
           { job with job_status := .failed,
                      error_message := some "processing failed",
                      finished_at := some now },
           1, 0, 1)

/-- Writing a job row back by primary key. -/
def updateJob (jobs : List IndexJob) (i : Nat) (r : IndexJob) : List IndexJob :=
  jobs.map (fun j => if j.id == i then r else j)

/-- The worker counters threaded through the loop. -/
structure WorkerCounts where
  processed : Nat
  succeeded : Nat
  failed : Nat
deriving DecidableEq, Repr

/-- The `for job in jobs` loop of `run_index_worker` (lines 1057-1101). -/
def runJobs (env : WorkerEnv) (now : Nat) :
    List Document × List IndexJob × WorkerCounts → List IndexJob →
    List Document × List IndexJob × WorkerCounts
  | s, [] => s
  | (docs, jobs, c), j :: rest =>
      let r := processJob env now docs j
      runJobs env now
        (r.1, updateJob jobs j.id r.2.1,
         { processed := c.processed + r.2.2.1,
           succeeded := c.succeeded + r.2.2.2.1,
           failed := c.failed + r.2.2.2.2 }) rest

/-- `dequeue_batch`: the query of lines 1045-1051 — `queued` jobs ordered by
`created_at` ascending, limited to `limit` rows. -/
def dequeue_batch (jobs : List IndexJob) (limit : Nat) : List IndexJob :=
  (((jobs.filter (fun j => j.job_status == .queued)).mergeSort
      (fun a b => a.created_at ≤ b.created_at)).take limit)

/-- The response of `run_index_worker` (lines 1103-1108). -/
structure WorkerResult where
  processed : Nat
  succeeded : Nat
  failed : Nat
  remaining : Nat
deriving DecidableEq, Repr

/-- The worker endpoint `run_index_worker` of `backend/main.py`
(lines 1038-1108). -/
def run_index_worker (env : WorkerEnv) (now : Nat) (limit : Nat) (st : DBState) :
    DBState × WorkerResult :=
  let batch := dequeue_batch st.jobs limit
  let r := runJobs env now (st.docs, st.jobs, ⟨0, 0, 0⟩) batch
  ({ st with docs := r.1, jobs := r.2.1 },
   { processed := r.2.2.processed, succeeded := r.2.2.succeeded,
     failed := r.2.2.failed,
     remaining := (r.2.1.filter (fun j => j.job_status == .queued)).length })

/-- `check_duplicate_file` of `backend/main.py` (lines 56-81): rejects an
upload whose filename, or whose checksum, matches a non-deleted row. -/
def check_duplicate_file (docs : List Document) (filename : String)
    (checksum : String) : Bool × String :=
  match docs.find? (fun d => d.filename == some filename && d.status != .deleted) with
  | some _ => (true, "duplicate filename: " ++ filename)
  | none =>
      match docs.find? (fun d => d.checksum == checksum && d.status != .deleted) with
      | some _ => (true, "duplicate content")
      | none => (false, "")

/-- The `unique=True` constraint on `documents.source_path`
(`backend/db_models.py` line 47): an insert whose source path is already
present in the table is rejected by the database. -/
def insertDocumentUnique (docs : List Document) (d : Document) :
    Option (List Document) :=
  if docs.any (fun d0 => d0.source_path == d.source_path) then none
  else some (docs ++ [d])

/-- Well-formedness of a database state: primary keys and the unique source
paths of the `documents` table, freshness of the id counters, and referential
ids of jobs drawn from allocated document ids. -/
structure WF (st : DBState) : Prop where
  ids_nodup : st.docs.Pairwise (fun a b => a.id ≠ b.id)
  paths_nodup : st.docs.Pairwise (fun a b => a.source_path ≠ b.source_path)
  ids_bound : ∀ d ∈ st.docs, d.id < st.nextDocId
  job_refs_bound : ∀ j ∈ st.jobs, j.document_id < st.nextDocId

/-! Helper lemmas about keyed lookup in lists with pairwise-distinct keys. -/

section KeyLemmas

variable {α : Type _} {β : Type _} [DecidableEq β]

theorem key_inj {f : α → β} {l : List α} (h : l.Pairwise (fun x y => f x ≠ f y))
    {a b : α} (ha : a ∈ l) (hb : b ∈ l) (hf : f a = f b) : a = b := by
  induction l with
  | nil => cases ha
  | cons c t ih =>
      rcases List.pairwise_cons.mp h with ⟨hc, ht⟩
      rcases List.mem_cons.mp ha with rfl | hat
      · rcases List.mem_cons.mp hb with rfl | hbt
        · rfl
        · exact absurd hf (hc b hbt)
      · rcases List.mem_cons.mp hb with rfl | hbt
        · exact absurd hf.symm (hc a hat)
        · exact ih ht hat hbt

theorem filter_key_singleton {f : α → β} {l : List α} {a : α}
    (h : l.Pairwise (fun x y => f x ≠ f y)) (ha : a ∈ l) :
    l.filter (fun x => f x == f a) = [a] := by
  induction l with
  | nil => cases ha
  | cons c t ih =>
      rcases List.pairwise_cons.mp h with ⟨hc, ht⟩
      rcases List.mem_cons.mp ha with rfl | hat
      · rw [List.filter_cons_of_pos (by simp)]
        have ht0 : t.filter (fun x => f x == f a) = [] := by
          rw [List.filter_eq_nil_iff]
          intro x hx
          simpa using fun h0 => (hc x hx) h0.symm
        rw [ht0]
      · rw [List.filter_cons_of_neg (by simpa using hc a hat), ih ht hat]

theorem find_key_self {f : α → β} {l : List α} {a : α}
    (h : l.Pairwise (fun x y => f x ≠ f y)) (ha : a ∈ l) :
    l.find? (fun x => f x == f a) = some a := by
  induction l with
  | nil => cases ha
  | cons c t ih =>
      rcases List.pairwise_cons.mp h with ⟨hc, ht⟩
      rcases List.mem_cons.mp ha with rfl | hat
      · simp [List.find?_cons]
      · rw [List.find?_cons_of_neg _ (by simpa using hc a hat)]
        exact ih ht hat

theorem filterMap_if_filter {p : α → Bool} {g : α → Option β} (l : List α) :
    (l.filterMap fun x => if p x then g x else none)
      = (l.filter p).filterMap g := by
  induction l with
  | nil => rfl
  | cons c t ih =>
      by_cases hc : p c
      · rw [List.filter_cons_of_pos hc]
        cases hg : g c <;>
          simp [List.filterMap_cons, hc, hg, ih]
      · rw [List.filter_cons_of_neg hc]
        simp [List.filterMap_cons, hc, ih]

end KeyLemmas

/-! Per-document effect of the reconcile apply loops. -/

/-- The unconditional field update performed by one `to_reindex` iteration on
its target row. -/
def reindexApply (now : Nat) (e : ReindexEntry) (d : Document) : Document :=
  { d with file_size := e.file_size, mtime := e.mtime, checksum := e.checksum,
           status := .reindexing, updated_at := now }

/-- The cumulative effect of the whole `to_reindex` loop on one row. -/
def reindexFoldDoc (now : Nat) (es : List ReindexEntry) (d : Document) : Document :=
  es.foldl (fun x e => reindexDoc now e x) d

/-- The cumulative effect of the whole `to_delete` loop on one row. -/
def deleteFoldDoc (now : Nat) (ds : List Document) (d : Document) : Document :=
  ds.foldl (fun x dd => deleteDoc now dd.id x) d

/-- The cumulative effect of a whole reconcile pass on one pre-existing row:
the reindex loop runs before the delete loop. -/
def docAfterPass (now : Nat) (es : List ReindexEntry) (ds : List Document)
    (d : Document) : Document :=
  deleteFoldDoc now ds (reindexFoldDoc now es d)

theorem reindexDoc_eq_ite (now : Nat) (e : ReindexEntry) (d : Document) :
    reindexDoc now e d = if d.id == e.docId then reindexApply now e d else d := rfl

theorem reindexApply_id (now : Nat) (e : ReindexEntry) (d : Document) :
    (reindexApply now e d).id = d.id := rfl

theorem reindexFoldDoc_eq_filter (now : Nat) (es : List ReindexEntry) :
    ∀ d : Document,
      reindexFoldDoc now es d
        = (es.filter fun e => e.docId == d.id).foldl
            (fun x e => reindexApply now e x) d := by
  induction es with
  | nil => intro d; rfl
  | cons e t ih =>
      intro d
      by_cases h : d.id = e.docId
      · have h1 : reindexDoc now e d = reindexApply now e d := by
          simp [reindexDoc_eq_ite, h]
        have h2 : (reindexApply now e d).id = d.id := rfl
        have h3 : (e :: t).filter (fun x => x.docId == d.id)
            = e :: t.filter (fun x => x.docId == d.id) :=
          List.filter_cons_of_pos (by simp [h])
        calc reindexFoldDoc now (e :: t) d
            = reindexFoldDoc now t (reindexDoc now e d) := rfl
          _ = reindexFoldDoc now t (reindexApply now e d) := by rw [h1]
          _ = (t.filter fun x => x.docId == (reindexApply now e d).id).foldl
                (fun x e => reindexApply now e x) (reindexApply now e d) := ih _
          _ = (t.filter fun x => x.docId == d.id).foldl
                (fun x e => reindexApply now e x) (reindexApply now e d) := by rw [h2]
          _ = ((e :: t).filter fun x => x.docId == d.id).foldl
                (fun x e => reindexApply now e x) d := by rw [h3]; rfl
      · have h1 : reindexDoc now e d = d := by
          simp [reindexDoc_eq_ite, h]
        have h3 : (e :: t).filter (fun x => x.docId == d.id)
            = t.filter (fun x => x.docId == d.id) :=
          List.filter_cons_of_neg (by simp; exact fun hx => h hx.symm)
        calc reindexFoldDoc now (e :: t) d
            = reindexFoldDoc now t (reindexDoc now e d) := rfl
          _ = reindexFoldDoc now t d := by rw [h1]
          _ = (t.filter fun x => x.docId == d.id).foldl
                (fun x e => reindexApply now e x) d := ih _
          _ = ((e :: t).filter fun x => x.docId == d.id).foldl
                (fun x e => reindexApply now e x) d := by rw [h3]

theorem reindexFoldDoc_of_no_hit {now : Nat} {es : List ReindexEntry} {d : Document}
    (h : (es.filter fun e => e.docId == d.id) = []) :
    reindexFoldDoc now es d = d := by
  rw [reindexFoldDoc_eq_filter, h]; rfl

theorem reindexFoldDoc_of_one_hit {now : Nat} {es : List ReindexEntry} {d : Document}
    {e : ReindexEntry} (h : (es.filter fun x => x.docId == d.id) = [e]) :
    reindexFoldDoc now es d = reindexApply now e d := by
  rw [reindexFoldDoc_eq_filter, h]; rfl

theorem deleteDoc_eq_ite (now i : Nat) (d : Document) :
    deleteDoc now i d
      = if d.id == i then { d with status := .deleted, updated_at := now } else d := rfl

theorem deleteFoldDoc_of_no_hit {now : Nat} {ds : List Document} :
    ∀ {d : Document}, (∀ dd ∈ ds, dd.id ≠ d.id) → deleteFoldDoc now ds d = d := by
  induction ds with
  | nil => intro d _; rfl
  | cons c t ih =>
      intro d h
      have h1 : deleteDoc now c.id d = d := by
        simp [deleteDoc_eq_ite]
        intro he
        exact absurd he.symm (h c (List.mem_cons_self c t))
      calc deleteFoldDoc now (c :: t) d
          = deleteFoldDoc now t (deleteDoc now c.id d) := rfl
        _ = deleteFoldDoc now t d := by rw [h1]
        _ = d := ih fun dd hdd => h dd (List.mem_cons_of_mem c hdd)

/-- Fields never written by `deleteDoc`. -/
theorem deleteDoc_frame (now i : Nat) (d : Document) :
    (deleteDoc now i d).id = d.id ∧
    (deleteDoc now i d).source_path = d.source_path ∧
    (deleteDoc now i d).filename = d.filename ∧
    (deleteDoc now i d).file_size = d.file_size ∧
    (deleteDoc now i d).mtime = d.mtime ∧
    (deleteDoc now i d).checksum = d.checksum ∧
    (deleteDoc now i d).chroma_collection = d.chroma_collection ∧
    (deleteDoc now i d).version = d.version ∧
    (deleteDoc now i d).created_at = d.created_at := by
  rw [deleteDoc_eq_ite]; split <;> exact ⟨rfl, rfl, rfl, rfl, rfl, rfl, rfl, rfl, rfl⟩

theorem deleteFoldDoc_frame (now : Nat) (ds : List Document) :
    ∀ d : Document,
      (deleteFoldDoc now ds d).id = d.id ∧
      (deleteFoldDoc now ds d).source_path = d.source_path ∧
      (deleteFoldDoc now ds d).filename = d.filename ∧
      (deleteFoldDoc now ds d).file_size = d.file_size ∧
      (deleteFoldDoc now ds d).mtime = d.mtime ∧
      (deleteFoldDoc now ds d).checksum = d.checksum ∧
      (deleteFoldDoc now ds d).chroma_collection = d.chroma_collection ∧
      (deleteFoldDoc now ds d).version = d.version ∧
      (deleteFoldDoc now ds d).created_at = d.created_at := by
  induction ds with
  | nil => intro d; exact ⟨rfl, rfl, rfl, rfl, rfl, rfl, rfl, rfl, rfl⟩
  | cons c t ih =>
      intro d
      have h1 := deleteDoc_frame now c.id d
      have h2 := ih (deleteDoc now c.id d)
      exact ⟨h2.1.trans h1.1, h2.2.1.trans h1.2.1, h2.2.2.1.trans h1.2.2.1,
             h2.2.2.2.1.trans h1.2.2.2.1, h2.2.2.2.2.1.trans h1.2.2.2.2.1,
             h2.2.2.2.2.2.1.trans h1.2.2.2.2.2.1,
             h2.2.2.2.2.2.2.1.trans h1.2.2.2.2.2.2.1,
             h2.2.2.2.2.2.2.2.1.trans h1.2.2.2.2.2.2.2.1,
             h2.2.2.2.2.2.2.2.2.trans h1.2.2.2.2.2.2.2.2⟩

/-- The delete loop sets `status` on its targets and nothing else's. -/
theorem deleteFoldDoc_status (now : Nat) (ds : List Document) :
    ∀ d : Document,
      (deleteFoldDoc now ds d).status
        = if ds.any (fun dd => dd.id == d.id) then DocumentStatus.deleted
          else d.status := by
  induction ds with
  | nil => intro d; rfl
  | cons c t ih =>
      intro d
      by_cases h : c.id = d.id
      · have h1 : deleteDoc now c.id d = { d with status := .deleted, updated_at := now } := by
          simp [deleteDoc_eq_ite, h]
        have h2 := ih { d with status := .deleted, updated_at := now }
        calc (deleteFoldDoc now (c :: t) d).status
            = (deleteFoldDoc now t (deleteDoc now c.id d)).status := rfl
          _ = (deleteFoldDoc now t { d with status := .deleted, updated_at := now }).status := by
                rw [h1]
          _ = _ := by
                rw [h2]
                simp [List.any_cons, h]
      · have h1 : deleteDoc now c.id d = d := by
          simp [deleteDoc_eq_ite]
          exact fun he => absurd he.symm h
        calc (deleteFoldDoc now (c :: t) d).status
            = (deleteFoldDoc now t (deleteDoc now c.id d)).status := rfl
          _ = (deleteFoldDoc now t d).status := by rw [h1]
          _ = _ := by rw [ih d]; simp [List.any_cons, fun he => h (by simpa using he)]

/-- Fields never written by `reindexApply`. -/
theorem reindexApply_frame (now : Nat) (e : ReindexEntry) (d : Document) :
    (reindexApply now e d).id = d.id ∧
    (reindexApply now e d).source_path = d.source_path ∧
    (reindexApply now e d).filename = d.filename ∧
    (reindexApply now e d).chroma_collection = d.chroma_collection ∧
    (reindexApply now e d).version = d.version ∧
    (reindexApply now e d).created_at = d.created_at :=
  ⟨rfl, rfl, rfl, rfl, rfl, rfl⟩

theorem reindexFoldDoc_frame (now : Nat) (es : List ReindexEntry) :
    ∀ d : Document,
      (reindexFoldDoc now es d).id = d.id ∧
      (reindexFoldDoc now es d).source_path = d.source_path ∧
      (reindexFoldDoc now es d).filename = d.filename ∧
      (reindexFoldDoc now es d).chroma_collection = d.chroma_collection ∧
      (reindexFoldDoc now es d).version = d.version ∧
      (reindexFoldDoc now es d).created_at = d.created_at := by
  induction es with
  | nil => intro d; exact ⟨rfl, rfl, rfl, rfl, rfl, rfl⟩
  | cons e t ih =>
      intro d
      have h1 : (reindexDoc now e d).id = d.id ∧
          (reindexDoc now e d).source_path = d.source_path ∧
          (reindexDoc now e d).filename = d.filename ∧
          (reindexDoc now e d).chroma_collection = d.chroma_collection ∧
          (reindexDoc now e d).version = d.version ∧
          (reindexDoc now e d).created_at = d.created_at := by
        rw [reindexDoc_eq_ite]; split <;> exact ⟨rfl, rfl, rfl, rfl, rfl, rfl⟩
      have h2 := ih (reindexDoc now e d)
      exact ⟨h2.1.trans h1.1, h2.2.1.trans h1.2.1, h2.2.2.1.trans h1.2.2.1,
             h2.2.2.2.1.trans h1.2.2.2.1, h2.2.2.2.2.1.trans h1.2.2.2.2.1,
             h2.2.2.2.2.2.trans h1.2.2.2.2.2⟩

/-- A nonempty run of reindex updates leaves the row in status `reindexing`. -/
theorem foldl_reindexApply_status (now : Nat) :
    ∀ (l : List ReindexEntry) (d : Document), l ≠ [] →
      (l.foldl (fun x e => reindexApply now e x) d).status = .reindexing := by
  intro l
  induction l with
  | nil => intro d h; exact absurd rfl h
  | cons e t ih =>
      intro d _
      cases t with
      | nil => rfl
      | cons e2 t2 => exact ih (reindexApply now e d) (by simp)

theorem reindexFoldDoc_status_of_hit {now : Nat} {es : List ReindexEntry} {d : Document}
    (h : (es.filter fun e => e.docId == d.id) ≠ []) :
    (reindexFoldDoc now es d).status = .reindexing := by
  rw [reindexFoldDoc_eq_filter]
  exact foldl_reindexApplyStatusAux h
where
  foldl_reindexApplyStatusAux {l : List ReindexEntry} (hl : l ≠ []) :
      (l.foldl (fun x e => reindexApply now e x) d).status = .reindexing :=
    foldl_reindexApply_status now l d hl

/-- Keys preserved by `docAfterPass`. -/
theorem docAfterPass_frame (now : Nat) (es : List ReindexEntry) (ds : List Document)
    (d : Document) :
    (docAfterPass now es ds d).id = d.id ∧
    (docAfterPass now es ds d).source_path = d.source_path ∧
    (docAfterPass now es ds d).version = d.version := by
  have h1 := deleteFoldDoc_frame now ds (reindexFoldDoc now es d)
  have h2 := reindexFoldDoc_frame now es d
  exact ⟨h1.1.trans h2.1, h1.2.1.trans h2.2.1,
         h1.2.2.2.2.2.2.2.1.trans h2.2.2.2.2.1⟩

/-! Closed forms for the three apply loops of `reconcile`. -/

/-- The documents created by the `to_index` loop, with ids allocated from
`did`. -/
def newDocsFrom (now did : Nat) : List FileMeta → List Document
  | [] => []
  | m :: ms => mkNewDoc now did m :: newDocsFrom now (did + 1) ms

/-- The jobs created by the `to_index` loop. -/
def newIndexJobsFrom (now jid did : Nat) : List FileMeta → List IndexJob
  | [] => []
  | _ :: ms => mkJob jid did .index now :: newIndexJobsFrom now (jid + 1) (did + 1) ms

/-- The jobs created by the `to_reindex` loop. -/
def reindexJobsFrom (now jid : Nat) : List ReindexEntry → List IndexJob
  | [] => []
  | e :: es => mkJob jid e.docId .reindex now :: reindexJobsFrom now (jid + 1) es

/-- The jobs created by the `to_delete` loop. -/
def deleteJobsFrom (now jid : Nat) : List Document → List IndexJob
  | [] => []
  | dd :: ds => mkJob jid dd.id .delete now :: deleteJobsFrom now (jid + 1) ds

theorem foldl_applyNewDoc (now : Nat) (L : List FileMeta) :
    ∀ st : DBState,
      L.foldl (applyNewDoc now) st
        = { docs := st.docs ++ newDocsFrom now st.nextDocId L,
            jobs := st.jobs ++ newIndexJobsFrom now st.nextJobId st.nextDocId L,
            nextDocId := st.nextDocId + L.length,
            nextJobId := st.nextJobId + L.length } := by
  induction L with
  | nil => intro st; simp [newDocsFrom, newIndexJobsFrom]
  | cons m t ih =>
      intro st
      calc (m :: t).foldl (applyNewDoc now) st
          = t.foldl (applyNewDoc now) (applyNewDoc now st m) := rfl
        _ = _ := by
            rw [ih]
            simp [applyNewDoc, newDocsFrom, newIndexJobsFrom]
            omega

theorem foldl_applyReindex (now : Nat) (es : List ReindexEntry) :
    ∀ st : DBState,
      es.foldl (applyReindex now) st
        = { docs := st.docs.map (reindexFoldDoc now es),
            jobs := st.jobs ++ reindexJobsFrom now st.nextJobId es,
            nextDocId := st.nextDocId,
            nextJobId := st.nextJobId + es.length } := by
  induction es with
  | nil =>
      intro st
      have hdocs : st.docs.map (reindexFoldDoc now []) = st.docs := by
        have h0 : ∀ d : Document, reindexFoldDoc now [] d = d := fun d => rfl
        calc st.docs.map (reindexFoldDoc now []) = st.docs.map id := by
              exact List.map_congr_left fun d _ => h0 d
          _ = st.docs := List.map_id st.docs
      simp [hdocs, reindexJobsFrom]
  | cons e t ih =>
      intro st
      calc (e :: t).foldl (applyReindex now) st
          = t.foldl (applyReindex now) (applyReindex now st e) := rfl
        _ = _ := by
            rw [ih]
            simp only [applyReindex, List.map_map, List.append_assoc, List.length_cons,
              DBState.mk.injEq]
            refine ⟨?_, ?_, ?_, ?_⟩ <;> first | trivial | omega

theorem foldl_applyDelete (now : Nat) (ds : List Document) :
    ∀ st : DBState,
      ds.foldl (applyDelete now) st
        = { docs := st.docs.map (deleteFoldDoc now ds),
            jobs := st.jobs ++ deleteJobsFrom now st.nextJobId ds,
            nextDocId := st.nextDocId,
            nextJobId := st.nextJobId + ds.length } := by
  induction ds with
  | nil =>
      intro st
      have hdocs : st.docs.map (deleteFoldDoc now []) = st.docs := by
        have h0 : ∀ d : Document, deleteFoldDoc now [] d = d := fun d => rfl
        calc st.docs.map (deleteFoldDoc now []) = st.docs.map id := by
              exact List.map_congr_left fun d _ => h0 d
          _ = st.docs := List.map_id st.docs
      simp [hdocs, deleteJobsFrom]
  | cons c t ih =>
      intro st
      calc (c :: t).foldl (applyDelete now) st
          = t.foldl (applyDelete now) (applyDelete now st c) := rfl
        _ = _ := by
            rw [ih]
            simp only [applyDelete, List.map_map, List.append_assoc, List.length_cons,
              DBState.mk.injEq]
            refine ⟨?_, ?_, ?_, ?_⟩ <;> first | trivial | omega

/-! Characterization of one reconcile pass. -/

/-- The scanned files that pass the extension filter. -/
def lfiles (disk : List FileMeta) : List FileMeta := disk.filter isPdf

/-- The `to_index` list of a pass. -/
def reconTI (disk : List FileMeta) (st : DBState) : List FileMeta :=
  toIndexList st.docs (lfiles disk)

/-- The `to_reindex` list of a pass: change entries followed by drift
entries. -/
def reconTR (collections : List String) (disk : List FileMeta) (st : DBState) :
    List ReindexEntry :=
  toReindexChanged st.docs (lfiles disk) ++ toDriftList collections st.docs

/-- The `to_delete` list of a pass. -/
def reconTD (disk : List FileMeta) (st : DBState) : List Document :=
  toDeleteList st.docs (lfiles disk)

theorem reconcile_fst (now : Nat) (collections : List String) (disk : List FileMeta)
    (st : DBState) :
    (reconcile now collections disk st).1
      = { docs := (st.docs ++ newDocsFrom now st.nextDocId (reconTI disk st)).map
                    (docAfterPass now (reconTR collections disk st) (reconTD disk st)),
          jobs := st.jobs
                   ++ (newIndexJobsFrom now st.nextJobId st.nextDocId (reconTI disk st)
                   ++ (reindexJobsFrom now (st.nextJobId + (reconTI disk st).length)
                         (reconTR collections disk st)
                   ++ deleteJobsFrom now
                         (st.nextJobId + (reconTI disk st).length
                            + (reconTR collections disk st).length)
                         (reconTD disk st))),
          nextDocId := st.nextDocId + (reconTI disk st).length,
          nextJobId := st.nextJobId + (reconTI disk st).length
                         + (reconTR collections disk st).length
                         + (reconTD disk st).length } := by
  show (let localFiles := disk.filter isPdf
        let toIndex := toIndexList st.docs localFiles
        let toReindex := toReindexChanged st.docs localFiles
                           ++ toDriftList collections st.docs
        let toDelete := toDeleteList st.docs localFiles
        let st1 := toIndex.foldl (applyNewDoc now) st
        let st2 := toReindex.foldl (applyReindex now) st1
        let st3 := toDelete.foldl (applyDelete now) st2
        st3) = _
  simp only []
  rw [foldl_applyNewDoc, foldl_applyReindex, foldl_applyDelete]
  simp only [List.map_map, List.append_assoc, DBState.mk.injEq]
  refine ⟨rfl, rfl, rfl, rfl⟩

theorem reconcile_docs (now : Nat) (collections : List String) (disk : List FileMeta)
    (st : DBState) :
    (reconcile now collections disk st).1.docs
      = (st.docs ++ newDocsFrom now st.nextDocId (reconTI disk st)).map
          (docAfterPass now (reconTR collections disk st) (reconTD disk st)) := by
  rw [reconcile_fst]

theorem reconcile_jobs_drop (now : Nat) (collections : List String)
    (disk : List FileMeta) (st : DBState) :
    (reconcile now collections disk st).1.jobs.drop st.jobs.length
      = newIndexJobsFrom now st.nextJobId st.nextDocId (reconTI disk st)
         ++ (reindexJobsFrom now (st.nextJobId + (reconTI disk st).length)
               (reconTR collections disk st)
         ++ deleteJobsFrom now
               (st.nextJobId + (reconTI disk st).length
                  + (reconTR collections disk st).length)
               (reconTD disk st)) := by
  rw [reconcile_fst]
  exact List.drop_left _ _

theorem reconcile_jobs (now : Nat) (collections : List String)
    (disk : List FileMeta) (st : DBState) :
    (reconcile now collections disk st).1.jobs
      = st.jobs
         ++ (newIndexJobsFrom now st.nextJobId st.nextDocId (reconTI disk st)
         ++ (reindexJobsFrom now (st.nextJobId + (reconTI disk st).length)
               (reconTR collections disk st)
         ++ deleteJobsFrom now
               (st.nextJobId + (reconTI disk st).length
                  + (reconTR collections disk st).length)
               (reconTD disk st))) := by
  rw [reconcile_fst]

/-! Lookup and membership lemmas. -/

theorem findByPath_some {docs : List Document} {p : String} {d : Document}
    (h : findByPath docs p = some d) : d ∈ docs ∧ d.source_path = p :=
  ⟨List.mem_of_find?_eq_some h, by simpa using List.find?_some h⟩

theorem findByPath_none {docs : List Document} {p : String}
    (h : findByPath docs p = none) : ∀ d ∈ docs, d.source_path ≠ p := by
  intro d hd
  have := List.find?_eq_none.mp h d hd
  simpa using this

theorem findByPath_self {docs : List Document} {d : Document}
    (hp : docs.Pairwise (fun a b => a.source_path ≠ b.source_path)) (hd : d ∈ docs) :
    findByPath docs d.source_path = some d :=
  find_key_self hp hd

theorem findDoc_self {docs : List Document} {d : Document}
    (hi : docs.Pairwise (fun a b => a.id ≠ b.id)) (hd : d ∈ docs) :
    findDoc docs d.id = some d :=
  find_key_self hi hd

theorem changeEntry_of_none {docs : List Document} {m : FileMeta}
    (h : findByPath docs m.source_path = none) : changeEntry docs m = none := by
  unfold changeEntry; rw [h]

theorem changeEntry_of_some {docs : List Document} {m : FileMeta} {d0 : Document}
    (h : findByPath docs m.source_path = some d0) :
    changeEntry docs m
      = if changedB d0 m then
          some ⟨d0.id, m.source_path, m.file_size, m.mtime, m.checksum⟩
        else none := by
  unfold changeEntry; rw [h]

theorem driftEntry_pos {collections : List String} {d : Document}
    (h : driftB collections d = true) :
    driftEntry collections d
      = some ⟨d.id, d.source_path, d.file_size, d.mtime, d.checksum⟩ := by
  unfold driftEntry; rw [if_pos h]

theorem driftEntry_neg {collections : List String} {d : Document}
    (h : driftB collections d = false) :
    driftEntry collections d = none := by
  unfold driftEntry; rw [if_neg (by simp [h])]

theorem toReindexChanged_mem {docs : List Document} {lf : List FileMeta}
    {e : ReindexEntry} (h : e ∈ toReindexChanged docs lf) :
    ∃ m ∈ lf, ∃ d0, findByPath docs m.source_path = some d0
      ∧ changedB d0 m = true
      ∧ e = ⟨d0.id, m.source_path, m.file_size, m.mtime, m.checksum⟩ := by
  rcases List.mem_filterMap.mp h with ⟨m, hm, hme⟩
  refine ⟨m, hm, ?_⟩
  cases hfind : findByPath docs m.source_path with
  | none => rw [changeEntry_of_none hfind] at hme; exact Option.noConfusion hme
  | some d0 =>
      rw [changeEntry_of_some hfind] at hme
      by_cases hch : changedB d0 m
      · rw [if_pos hch] at hme
        exact ⟨d0, rfl, hch, (Option.some_inj.mp hme).symm⟩
      · rw [if_neg hch] at hme; exact Option.noConfusion hme

theorem toDriftList_mem {collections : List String} {docs : List Document}
    {e : ReindexEntry} (h : e ∈ toDriftList collections docs) :
    ∃ y ∈ docs, driftB collections y = true
      ∧ e = ⟨y.id, y.source_path, y.file_size, y.mtime, y.checksum⟩ := by
  rcases List.mem_filterMap.mp h with ⟨y, hy, hye⟩
  by_cases hdr : driftB collections y
  · rw [driftEntry_pos hdr] at hye
    exact ⟨y, hy, hdr, (Option.some_inj.mp hye).symm⟩
  · rw [driftEntry_neg (by simpa using hdr)] at hye; exact Option.noConfusion hye

theorem toDeleteList_mem {docs : List Document} {lf : List FileMeta} {x : Document}
    (h : x ∈ toDeleteList docs lf) :
    x ∈ docs ∧ (!onDisk lf x.source_path && x.status != .deleted) = true :=
  ⟨(List.mem_filter.mp h).1, (List.mem_filter.mp h).2⟩

/-! Hit characterizations: which `to_reindex`/`to_delete` entries target a
given pre-existing row. -/

theorem changed_hits_nil {docs : List Document} {lf : List FileMeta} {i : Nat}
    (h : ∀ m ∈ lf, ∀ d0, findByPath docs m.source_path = some d0 → d0.id ≠ i) :
    (toReindexChanged docs lf).filter (fun e => e.docId == i) = [] := by
  rw [List.filter_eq_nil_iff]
  intro e he
  rcases toReindexChanged_mem he with ⟨m, hm, d0, hfind, _, rfl⟩
  simpa using h m hm d0 hfind

/-- The `to_reindex` entry that change detection produces for row `d` from
file `m`, when `m` is the file at `d`'s path. -/
def changedEntryFor (d : Document) (m : FileMeta) : Option ReindexEntry :=
  if changedB d m then
    some ⟨d.id, m.source_path, m.file_size, m.mtime, m.checksum⟩
  else none

theorem changedEntryFor_pos {d : Document} {m : FileMeta} (h : changedB d m = true) :
    changedEntryFor d m
      = some ⟨d.id, m.source_path, m.file_size, m.mtime, m.checksum⟩ := by
  unfold changedEntryFor; rw [if_pos h]

theorem changedEntryFor_neg {d : Document} {m : FileMeta} (h : changedB d m = false) :
    changedEntryFor d m = none := by
  unfold changedEntryFor; rw [if_neg (by simp [h])]

theorem changed_hits {docs : List Document} {lf : List FileMeta} {d : Document}
    (hp : docs.Pairwise (fun a b => a.source_path ≠ b.source_path))
    (hi : docs.Pairwise (fun a b => a.id ≠ b.id))
    (hd : d ∈ docs) :
    (toReindexChanged docs lf).filter (fun e => e.docId == d.id)
      = (lf.filter fun m => m.source_path == d.source_path).filterMap
          (changedEntryFor d) := by
  induction lf with
  | nil => rfl
  | cons m t ih =>
      by_cases hpath : m.source_path = d.source_path
      · have hfind : findByPath docs m.source_path = some d := by
          rw [hpath]; exact findByPath_self hp hd
        by_cases hch : changedB d m
        · have hce : changeEntry docs m
              = some ⟨d.id, m.source_path, m.file_size, m.mtime, m.checksum⟩ := by
            rw [changeEntry_of_some hfind, if_pos hch]
          rw [show toReindexChanged docs (m :: t)
                = _ :: toReindexChanged docs t from List.filterMap_cons_some hce]
          rw [List.filter_cons_of_pos (by simp)]
          rw [List.filter_cons_of_pos (by simpa using hpath)]
          rw [List.filterMap_cons_some (changedEntryFor_pos hch)]
          rw [ih]
        · have hce : changeEntry docs m = none := by
            rw [changeEntry_of_some hfind, if_neg hch]
          rw [show toReindexChanged docs (m :: t)
                = toReindexChanged docs t from List.filterMap_cons_none hce]
          rw [List.filter_cons_of_pos (by simpa using hpath)]
          rw [List.filterMap_cons_none (changedEntryFor_neg (by simpa using hch))]
          rw [ih]
      · have hstep : (toReindexChanged docs (m :: t)).filter (fun e => e.docId == d.id)
            = (toReindexChanged docs t).filter (fun e => e.docId == d.id) := by
          cases hfind : findByPath docs m.source_path with
          | none =>
              rw [show toReindexChanged docs (m :: t)
                    = toReindexChanged docs t from
                  List.filterMap_cons_none (changeEntry_of_none hfind)]
          | some d0 =>
              have hd0 := findByPath_some hfind
              have hne : d0.id ≠ d.id := by
                intro hid
                have hdd : d0 = d := key_inj hi hd0.1 hd hid
                exact hpath (by rw [← hd0.2, hdd])
              by_cases hch : changedB d0 m
              · have hce : changeEntry docs m
                    = some ⟨d0.id, m.source_path, m.file_size, m.mtime, m.checksum⟩ := by
                  rw [changeEntry_of_some hfind, if_pos hch]
                rw [show toReindexChanged docs (m :: t)
                      = _ :: toReindexChanged docs t from List.filterMap_cons_some hce]
                rw [List.filter_cons_of_neg (by simpa using hne)]
              · have hce : changeEntry docs m = none := by
                  rw [changeEntry_of_some hfind, if_neg hch]
                rw [show toReindexChanged docs (m :: t)
                      = toReindexChanged docs t from List.filterMap_cons_none hce]
        rw [hstep, ih]
        rw [List.filter_cons_of_neg (by simpa using hpath)]

theorem drift_hits_nil {collections : List String} {docs : List Document} {i : Nat}
    (h : ∀ y ∈ docs, y.id ≠ i) :
    (toDriftList collections docs).filter (fun e => e.docId == i) = [] := by
  rw [List.filter_eq_nil_iff]
  intro e he
  rcases toDriftList_mem he with ⟨y, hy, _, rfl⟩
  simpa using h y hy

theorem drift_hits {collections : List String} {docs : List Document} {d : Document}
    (hi : docs.Pairwise (fun a b => a.id ≠ b.id)) (hd : d ∈ docs) :
    (toDriftList collections docs).filter (fun e => e.docId == d.id)
      = if driftB collections d then
          [⟨d.id, d.source_path, d.file_size, d.mtime, d.checksum⟩] else [] := by
  induction docs with
  | nil => cases hd
  | cons x t ih =>
      rcases List.pairwise_cons.mp hi with ⟨hx, ht⟩
      rcases List.mem_cons.mp hd with rfl | hdt
      · have ht0 : (toDriftList collections t).filter (fun e => e.docId == d.id) = [] :=
          drift_hits_nil fun y hy => (hx y hy).symm
        by_cases hdr : driftB collections d
        · rw [show toDriftList collections (d :: t)
                = _ :: toDriftList collections t from
              List.filterMap_cons_some (driftEntry_pos hdr)]
          rw [List.filter_cons_of_pos (by simp)]
          rw [ht0, if_pos hdr]
        · rw [show toDriftList collections (d :: t)
                = toDriftList collections t from
              List.filterMap_cons_none (driftEntry_neg (by simpa using hdr))]
          rw [ht0, if_neg hdr]
      · have hne : x.id ≠ d.id := hx d hdt
        by_cases hdr : driftB collections x
        · rw [show toDriftList collections (x :: t)
                = _ :: toDriftList collections t from
              List.filterMap_cons_some (driftEntry_pos hdr)]
          rw [List.filter_cons_of_neg (by simpa using hne)]
          exact ih ht hdt
        · rw [show toDriftList collections (x :: t)
                = toDriftList collections t from
              List.filterMap_cons_none (driftEntry_neg (by simpa using hdr))]
          exact ih ht hdt

theorem delete_hits {docs : List Document} {lf : List FileMeta} {d : Document}
    (hi : docs.Pairwise (fun a b => a.id ≠ b.id)) (hd : d ∈ docs) :
    (toDeleteList docs lf).filter (fun x => x.id == d.id)
      = if (!onDisk lf d.source_path && d.status != .deleted) then [d] else [] := by
  unfold toDeleteList
  rw [List.filter_filter]
  induction docs with
  | nil => cases hd
  | cons x t ih =>
      rcases List.pairwise_cons.mp hi with ⟨hx, ht⟩
      rcases List.mem_cons.mp hd with rfl | hdt
      · have ht0 : t.filter
            (fun a => a.id == d.id && (!onDisk lf a.source_path && a.status != .deleted))
              = [] := by
          rw [List.filter_eq_nil_iff]
          intro y hy
          simp only [Bool.and_eq_true, beq_iff_eq, not_and]
          intro hid
          exact absurd hid.symm (hx y hy)
        by_cases hq : (!onDisk lf d.source_path && d.status != .deleted) = true
        · rw [List.filter_cons_of_pos (by simp [hq]), ht0, if_pos hq]
        · rw [List.filter_cons_of_neg (by simp [hq]), ht0, if_neg hq]
      · have hne : x.id ≠ d.id := hx d hdt
        rw [List.filter_cons_of_neg (by simp [hne])]
        exact ih ht hdt

/-! Freshness of allocated ids, and identity of the pass on fresh rows. -/

theorem newDocsFrom_id_ge (now : Nat) :
    ∀ (L : List FileMeta) (did : Nat), ∀ x ∈ newDocsFrom now did L, did ≤ x.id := by
  intro L
  induction L with
  | nil => intro did x hx; cases hx
  | cons m t ih =>
      intro did x hx
      rcases List.mem_cons.mp hx with rfl | hxt
      · exact Nat.le_refl _
      · exact Nat.le_of_succ_le (ih (did + 1) x hxt)

theorem newDocsFrom_map_path (now : Nat) :
    ∀ (L : List FileMeta) (did : Nat),
      (newDocsFrom now did L).map (fun x => x.source_path)
        = L.map (fun m => m.source_path) := by
  intro L
  induction L with
  | nil => intro did; rfl
  | cons m t ih => intro did; simp [newDocsFrom, mkNewDoc, ih]

theorem reconTR_ids {collections : List String} {disk : List FileMeta} {st : DBState}
    {e : ReindexEntry} (h : e ∈ reconTR collections disk st) :
    ∃ y ∈ st.docs, y.id = e.docId := by
  rcases List.mem_append.mp h with h1 | h2
  · rcases toReindexChanged_mem h1 with ⟨m, _, d0, hfind, _, rfl⟩
    exact ⟨d0, (findByPath_some hfind).1, rfl⟩
  · rcases toDriftList_mem h2 with ⟨y, hy, _, rfl⟩
    exact ⟨y, hy, rfl⟩

theorem reconTD_mem {disk : List FileMeta} {st : DBState} {x : Document}
    (h : x ∈ reconTD disk st) : x ∈ st.docs :=
  (toDeleteList_mem h).1

theorem docAfterPass_fresh {now : Nat} {es : List ReindexEntry} {ds : List Document}
    {x : Document} (hes : ∀ e ∈ es, e.docId ≠ x.id) (hds : ∀ dd ∈ ds, dd.id ≠ x.id) :
    docAfterPass now es ds x = x := by
  unfold docAfterPass
  rw [reindexFoldDoc_of_no_hit (by
    rw [List.filter_eq_nil_iff]; intro e he; simpa using hes e he)]
  exact deleteFoldDoc_of_no_hit hds

/-- A reconcile pass never touches a row with an unallocated id: with a
well-formed state, `docAfterPass` is the identity on documents created in the
same pass. -/
theorem docAfterPass_fresh_of_wf {now : Nat} {collections : List String}
    {disk : List FileMeta} {st : DBState} (hwf : WF st) {x : Document}
    (hx : st.nextDocId ≤ x.id) :
    docAfterPass now (reconTR collections disk st) (reconTD disk st) x = x := by
  apply docAfterPass_fresh
  · intro e he hex
    rcases reconTR_ids he with ⟨y, hy, hyid⟩
    have := hwf.ids_bound y hy
    omega
  · intro dd hdd hddx
    have := hwf.ids_bound dd (reconTD_mem hdd)
    omega

theorem reconcile_findDoc {now : Nat} {collections : List String}
    {disk : List FileMeta} {st : DBState} {d : Document}
    (hi : st.docs.Pairwise (fun a b => a.id ≠ b.id)) (hd : d ∈ st.docs) :
    findDoc (reconcile now collections disk st).1.docs d.id
      = some (docAfterPass now (reconTR collections disk st) (reconTD disk st) d) := by
  rw [reconcile_docs]
  unfold findDoc
  have hpf : (fun x : Document => x.id == d.id)
        ∘ (docAfterPass now (reconTR collections disk st) (reconTD disk st))
      = fun x : Document => x.id == d.id := by
    funext x
    simp [Function.comp,
      (docAfterPass_frame now (reconTR collections disk st) (reconTD disk st) x).1]
  rw [List.find?_map, hpf, List.find?_append,
      show List.find? (fun x : Document => x.id == d.id) st.docs = some d from
        findDoc_self hi hd]
  rfl

/-- Reconcile preserves the pairwise distinctness of catalog source paths
(the uniqueness constraint stays satisfiable: new rows are created only for
paths absent from the catalog, and those paths are pairwise distinct on
disk). -/
theorem reconcile_paths_nodup {now : Nat} {collections : List String}
    {disk : List FileMeta} {st : DBState}
    (hdisk : disk.Pairwise (fun a b => a.source_path ≠ b.source_path))
    (hp : st.docs.Pairwise (fun a b => a.source_path ≠ b.source_path)) :
    (reconcile now collections disk st).1.docs.Pairwise
      (fun a b => a.source_path ≠ b.source_path) := by
  rw [reconcile_docs]
  rw [List.pairwise_map]
  have hpres : ∀ x : Document,
      (docAfterPass now (reconTR collections disk st) (reconTD disk st) x).source_path
        = x.source_path :=
    fun x => (docAfterPass_frame now _ _ x).2.1
  have hgoal : (st.docs ++ newDocsFrom now st.nextDocId (reconTI disk st)).Pairwise
      (fun a b => a.source_path ≠ b.source_path) := by
    rw [List.pairwise_append]
    refine ⟨hp, ?_, ?_⟩
    · have hTI : (reconTI disk st).Pairwise
          (fun a b => a.source_path ≠ b.source_path) := by
        have h1 : (lfiles disk).Pairwise (fun a b => a.source_path ≠ b.source_path) :=
          List.Pairwise.sublist (List.filter_sublist disk) hdisk
        exact List.Pairwise.sublist (List.filter_sublist _) h1
      have hmap : ((newDocsFrom now st.nextDocId (reconTI disk st)).map
            (fun x => x.source_path)).Pairwise (fun a b => a ≠ b) := by
        rw [newDocsFrom_map_path]
        exact List.pairwise_map.mpr hTI
      exact List.pairwise_map.mp hmap
    · intro a ha b hb
      have hbpath : b.source_path ∈ (reconTI disk st).map (fun m => m.source_path) := by
        rw [← newDocsFrom_map_path now _ st.nextDocId]
        exact List.mem_map_of_mem _ hb
      rcases List.mem_map.mp hbpath with ⟨m, hm, hmb⟩
      have hnone : (findByPath st.docs m.source_path).isNone := by
        have := List.mem_filter.mp hm
        simpa using this.2
      have habs := findByPath_none (Option.isNone_iff_eq_none.mp hnone) a ha
      rw [← hmb]
      exact habs
  exact List.Pairwise.imp (by
    intro a b hab
    rw [hpres a, hpres b]
    exact hab) hgoal

/-! Facts about the job rows appended by a pass. -/

theorem newIndexJobsFrom_spec (now : Nat) :
    ∀ (L : List FileMeta) (jid did : Nat), ∀ j ∈ newIndexJobsFrom now jid did L,
      j.job_type = .index ∧ j.job_status = .queued ∧ did ≤ j.document_id := by
  intro L
  induction L with
  | nil => intro jid did j hj; cases hj
  | cons m t ih =>
      intro jid did j hj
      rcases List.mem_cons.mp hj with rfl | hjt
      · exact ⟨rfl, rfl, Nat.le_refl _⟩
      · rcases ih (jid + 1) (did + 1) j hjt with ⟨h1, h2, h3⟩
        exact ⟨h1, h2, Nat.le_of_succ_le h3⟩

theorem newIndexJobsFrom_filter_lt (now : Nat) :
    ∀ (L : List FileMeta) (jid did i : Nat), i < did →
      (newIndexJobsFrom now jid did L).filter (fun j => j.document_id == i) = [] := by
  intro L jid did i hi
  rw [List.filter_eq_nil_iff]
  intro j hj
  have := (newIndexJobsFrom_spec now L jid did j hj).2.2
  simp only [beq_iff_eq]
  omega

theorem newIndexJobsFrom_filter_at (now : Nat) :
    ∀ (L : List FileMeta) (jid did k : Nat), k < L.length →
      ((newIndexJobsFrom now jid did L).filter
          (fun j => j.document_id == did + k)).map
        (fun j => (j.job_type, j.job_status))
        = [(IndexJobType.index, IndexJobStatus.queued)] := by
  intro L
  induction L with
  | nil => intro jid did k hk; cases hk
  | cons m t ih =>
      intro jid did k hk
      cases k with
      | zero =>
          have hrest : (newIndexJobsFrom now (jid + 1) (did + 1) t).filter
              (fun j => j.document_id == did + 0) = [] :=
            newIndexJobsFrom_filter_lt now t (jid + 1) (did + 1) (did + 0) (by omega)
          rw [show newIndexJobsFrom now jid did (m :: t)
                = mkJob jid did .index now :: newIndexJobsFrom now (jid + 1) (did + 1) t
              from rfl]
          rw [List.filter_cons_of_pos (by simp [mkJob])]
          rw [hrest]
          rfl
      | succ k0 =>
          rw [show newIndexJobsFrom now jid did (m :: t)
                = mkJob jid did .index now :: newIndexJobsFrom now (jid + 1) (did + 1) t
              from rfl]
          rw [List.filter_cons_of_neg (by simp only [mkJob, beq_iff_eq]; omega)]
          have := ih (jid + 1) (did + 1) k0 (by simpa using hk)
          rw [show did + (k0 + 1) = (did + 1) + k0 by omega]
          exact this

theorem reindexJobsFrom_filter_map (now : Nat) :
    ∀ (es : List ReindexEntry) (jid i : Nat),
      ((reindexJobsFrom now jid es).filter (fun j => j.document_id == i)).map
        (fun j => (j.job_type, j.job_status))
        = (es.filter (fun e => e.docId == i)).map
            (fun _ => (IndexJobType.reindex, IndexJobStatus.queued)) := by
  intro es
  induction es with
  | nil => intro jid i; rfl
  | cons e t ih =>
      intro jid i
      by_cases he : e.docId = i
      · rw [show reindexJobsFrom now jid (e :: t)
              = mkJob jid e.docId .reindex now :: reindexJobsFrom now (jid + 1) t
            from rfl]
        rw [List.filter_cons_of_pos (by simp [mkJob, he]),
            List.filter_cons_of_pos (by simp [he])]
        simp only [List.map_cons]
        rw [ih]
        rfl
      · rw [show reindexJobsFrom now jid (e :: t)
              = mkJob jid e.docId .reindex now :: reindexJobsFrom now (jid + 1) t
            from rfl]
        rw [List.filter_cons_of_neg (by simp [mkJob, he]),
            List.filter_cons_of_neg (by simp [he])]
        exact ih (jid + 1) i

theorem reindexJobsFrom_mem (now : Nat) :
    ∀ (es : List ReindexEntry) (jid : Nat) (e : ReindexEntry), e ∈ es →
      ∃ j ∈ reindexJobsFrom now jid es,
        j.document_id = e.docId ∧ j.job_type = .reindex ∧ j.job_status = .queued := by
  intro es
  induction es with
  | nil => intro jid e he; cases he
  | cons e0 t ih =>
      intro jid e he
      rcases List.mem_cons.mp he with rfl | het
      · exact ⟨mkJob jid e.docId .reindex now, List.mem_cons_self _ _, rfl, rfl, rfl⟩
      · rcases ih (jid + 1) e het with ⟨j, hj, h1, h2, h3⟩
        exact ⟨j, List.mem_cons_of_mem _ hj, h1, h2, h3⟩

theorem deleteJobsFrom_filter_map (now : Nat) :
    ∀ (ds : List Document) (jid i : Nat),
      ((deleteJobsFrom now jid ds).filter (fun j => j.document_id == i)).map
        (fun j => (j.job_type, j.job_status))
        = (ds.filter (fun dd => dd.id == i)).map
            (fun _ => (IndexJobType.delete, IndexJobStatus.queued)) := by
  intro ds
  induction ds with
  | nil => intro jid i; rfl
  | cons dd t ih =>
      intro jid i
      by_cases he : dd.id = i
      · rw [show deleteJobsFrom now jid (dd :: t)
              = mkJob jid dd.id .delete now :: deleteJobsFrom now (jid + 1) t
            from rfl]
        rw [List.filter_cons_of_pos (by simp [mkJob, he]),
            List.filter_cons_of_pos (by simp [he])]
        simp only [List.map_cons]
        rw [ih]
        rfl
      · rw [show deleteJobsFrom now jid (dd :: t)
              = mkJob jid dd.id .delete now :: deleteJobsFrom now (jid + 1) t
            from rfl]
        rw [List.filter_cons_of_neg (by simp [mkJob, he]),
            List.filter_cons_of_neg (by simp [he])]
        exact ih (jid + 1) i

/-! Auxiliary lemmas for the post-pass analysis. -/

theorem TR_hits {now : Nat} {collections : List String} {disk : List FileMeta}
    {st : DBState} {d : Document} (hwf : WF st) (hd : d ∈ st.docs) :
    (reconTR collections disk st).filter (fun e => e.docId == d.id)
      = ((lfiles disk).filter (fun m => m.source_path == d.source_path)).filterMap
          (changedEntryFor d)
        ++ (if driftB collections d then
             [⟨d.id, d.source_path, d.file_size, d.mtime, d.checksum⟩] else []) := by
  unfold reconTR
  rw [List.filter_append, changed_hits hwf.paths_nodup hwf.ids_nodup hd,
      drift_hits hwf.ids_nodup hd]

theorem newDocsFrom_mem {now : Nat} :
    ∀ {L : List FileMeta} {did : Nat} {x : Document}, x ∈ newDocsFrom now did L →
      ∃ m ∈ L, ∃ i, did ≤ i ∧ x = mkNewDoc now i m := by
  intro L
  induction L with
  | nil => intro did x hx; cases hx
  | cons m t ih =>
      intro did x hx
      rcases List.mem_cons.mp hx with rfl | hxt
      · exact ⟨m, List.mem_cons_self _ _, did, Nat.le_refl _, rfl⟩
      · rcases ih hxt with ⟨m0, hm0, i, hi, hxi⟩
        exact ⟨m0, List.mem_cons_of_mem _ hm0, i, Nat.le_of_succ_le hi, hxi⟩

theorem reconcile_docs_mem {now : Nat} {collections : List String}
    {disk : List FileMeta} {st : DBState} {x : Document}
    (hx : x ∈ (reconcile now collections disk st).1.docs) :
    ∃ y, (y ∈ st.docs ∨ y ∈ newDocsFrom now st.nextDocId (reconTI disk st))
      ∧ x = docAfterPass now (reconTR collections disk st) (reconTD disk st) y := by
  rw [reconcile_docs] at hx
  rcases List.mem_map.mp hx with ⟨y, hy, rfl⟩
  exact ⟨y, List.mem_append.mp hy, rfl⟩

theorem driftB_of_status_ne {collections : List String} {x : Document}
    (h : x.status ≠ .indexed) : driftB collections x = false := by
  have hb : (x.status == DocumentStatus.indexed) = false := by
    simpa using h
  simp [driftB, hb]

theorem changedB_congr {x y : Document} {m : FileMeta}
    (h1 : x.file_size = y.file_size) (h2 : x.checksum = y.checksum) :
    changedB x m = changedB y m := by
  simp [changedB, h1, h2]

theorem driftB_congr {x y : Document} {collections : List String}
    (h1 : x.status = y.status) (h2 : x.chroma_collection = y.chroma_collection)
    (h3 : x.source_path = y.source_path) :
    driftB collections x = driftB collections y := by
  have he : expectedCollection x = expectedCollection y := by
    unfold expectedCollection
    rw [h2, h3]
  simp [driftB, h1, he]

theorem onDisk_of_mem {lf : List FileMeta} {m : FileMeta} (hm : m ∈ lf) :
    onDisk lf m.source_path = true := by
  unfold onDisk
  rw [List.any_eq_true]
  exact ⟨m, hm, by simp⟩

theorem offDisk_filter_nil {lf : List FileMeta} {p : String}
    (h : onDisk lf p = false) :
    lf.filter (fun m => m.source_path == p) = [] := by
  rw [List.filter_eq_nil_iff]
  intro m hm
  have := List.any_eq_false.mp h m hm
  simpa using this

theorem reconTI_sublist (disk : List FileMeta) (st : DBState) :
    (reconTI disk st).Sublist (lfiles disk) :=
  List.filter_sublist _

theorem lfiles_paths_nodup {disk : List FileMeta}
    (hdisk : disk.Pairwise (fun a b => a.source_path ≠ b.source_path)) :
    (lfiles disk).Pairwise (fun a b => a.source_path ≠ b.source_path) :=
  List.Pairwise.sublist (List.filter_sublist disk) hdisk

/-- The disjointness proviso: no catalog row is simultaneously index-drifted
and content-changed in the same pass. -/
def noChangedDrift (collections : List String) (disk : List FileMeta)
    (st : DBState) : Prop :=
  ∀ d ∈ st.docs, driftB collections d = true →
    ∀ m ∈ lfiles disk, m.source_path = d.source_path → changedB d m = false

/-! Post-pass facts: after one reconcile pass, every scanned path is covered,
fingerprints agree, orphans are `deleted`, and nothing drifts. -/

theorem reconcile_covers_disk {now : Nat} {collections : List String}
    {disk : List FileMeta} {st : DBState} {m : FileMeta}
    (hm : m ∈ lfiles disk) :
    ∃ x ∈ (reconcile now collections disk st).1.docs,
      x.source_path = m.source_path := by
  rw [reconcile_docs]
  cases hfind : findByPath st.docs m.source_path with
  | some d =>
      refine ⟨docAfterPass now (reconTR collections disk st) (reconTD disk st) d,
        List.mem_map_of_mem _ (List.mem_append_left _ (findByPath_some hfind).1), ?_⟩
      rw [(docAfterPass_frame now _ _ d).2.1]
      exact (findByPath_some hfind).2
  | none =>
      have hTI : m ∈ reconTI disk st := by
        unfold reconTI toIndexList
        rw [List.mem_filter]
        exact ⟨hm, by simp [hfind]⟩
      have hpath : m.source_path
          ∈ (newDocsFrom now st.nextDocId (reconTI disk st)).map
              (fun x => x.source_path) := by
        rw [newDocsFrom_map_path]
        exact List.mem_map_of_mem _ hTI
      rcases List.mem_map.mp hpath with ⟨nd, hnd, hndp⟩
      refine ⟨docAfterPass now (reconTR collections disk st) (reconTD disk st) nd,
        List.mem_map_of_mem _ (List.mem_append_right _ hnd), ?_⟩
      rw [(docAfterPass_frame now _ _ nd).2.1]
      exact hndp

theorem reconcile_fingerprint {now : Nat} {collections : List String}
    {disk : List FileMeta} {st : DBState}
    (hdisk : disk.Pairwise (fun a b => a.source_path ≠ b.source_path))
    (hwf : WF st) (hdisj : noChangedDrift collections disk st) :
    ∀ m ∈ lfiles disk, ∀ x ∈ (reconcile now collections disk st).1.docs,
      x.source_path = m.source_path → changedB x m = false := by
  intro m hm x hx hxm
  rcases reconcile_docs_mem hx with ⟨y, hy, rfl⟩
  have hyx := docAfterPass_frame now (reconTR collections disk st) (reconTD disk st) y
  have hyp : y.source_path = m.source_path := by rw [← hyx.2.1]; exact hxm
  rcases hy with hyold | hynew
  · -- pre-existing row
    have hfil : (lfiles disk).filter (fun m0 => m0.source_path == y.source_path)
        = [m] := by
      rw [hyp]
      exact filter_key_singleton (f := fun m0 : FileMeta => m0.source_path)
        (lfiles_paths_nodup hdisk) hm
    have hhits := @TR_hits now collections disk st y hwf hyold
    rw [hfil] at hhits
    have hframe1 := deleteFoldDoc_frame now (reconTD disk st)
      (reindexFoldDoc now (reconTR collections disk st) y)
    by_cases hdr : driftB collections y = true
    · have hch : changedB y m = false := hdisj y hyold hdr m hm hyp.symm
      rw [List.filterMap_cons_none (changedEntryFor_neg hch), List.filterMap_nil,
          if_pos hdr, List.nil_append] at hhits
      have hfold := @reindexFoldDoc_of_one_hit now _ _ _ hhits
      have hsz : (docAfterPass now (reconTR collections disk st)
          (reconTD disk st) y).file_size = y.file_size := by
        unfold docAfterPass
        rw [hframe1.2.2.2.1, hfold]
        rfl
      have hck : (docAfterPass now (reconTR collections disk st)
          (reconTD disk st) y).checksum = y.checksum := by
        unfold docAfterPass
        rw [hframe1.2.2.2.2.2.1, hfold]
        rfl
      rw [changedB_congr hsz hck]
      exact hch
    · rw [if_neg hdr, List.append_nil] at hhits
      by_cases hch : changedB y m = true
      · rw [List.filterMap_cons_some (changedEntryFor_pos hch), List.filterMap_nil]
          at hhits
        have hfold := @reindexFoldDoc_of_one_hit now _ _ _ hhits
        have hsz : (docAfterPass now (reconTR collections disk st)
            (reconTD disk st) y).file_size = m.file_size := by
          unfold docAfterPass
          rw [hframe1.2.2.2.1, hfold]
          rfl
        have hck : (docAfterPass now (reconTR collections disk st)
            (reconTD disk st) y).checksum = m.checksum := by
          unfold docAfterPass
          rw [hframe1.2.2.2.2.2.1, hfold]
          rfl
        simp [changedB, hsz, hck]
      · have hchf : changedB y m = false := by simpa using hch
        rw [List.filterMap_cons_none (changedEntryFor_neg hchf), List.filterMap_nil]
          at hhits
        have hfold := @reindexFoldDoc_of_no_hit now _ _ hhits
        have hsz : (docAfterPass now (reconTR collections disk st)
            (reconTD disk st) y).file_size = y.file_size := by
          unfold docAfterPass
          rw [hframe1.2.2.2.1, hfold]
        have hck : (docAfterPass now (reconTR collections disk st)
            (reconTD disk st) y).checksum = y.checksum := by
          unfold docAfterPass
          rw [hframe1.2.2.2.2.2.1, hfold]
        rw [changedB_congr hsz hck]
        exact hchf
  · -- row created in this pass
    rcases newDocsFrom_mem hynew with ⟨m0, hm0, i, hi, rfl⟩
    have hfresh := @docAfterPass_fresh_of_wf now collections disk st hwf
      (mkNewDoc now i m0) (by simpa [mkNewDoc] using hi)
    rw [hfresh]
    have hm0lf : m0 ∈ lfiles disk := (reconTI_sublist disk st).subset hm0
    have hm0p : m0.source_path = m.source_path := by
      simpa [mkNewDoc] using hyp
    have hm0m : m0 = m :=
      key_inj (f := fun m0 : FileMeta => m0.source_path)
        (lfiles_paths_nodup hdisk) hm0lf hm hm0p
    subst hm0m
    simp [changedB, mkNewDoc]

theorem reconcile_orphans_deleted {now : Nat} {collections : List String}
    {disk : List FileMeta} {st : DBState} (hwf : WF st) :
    ∀ x ∈ (reconcile now collections disk st).1.docs,
      onDisk (lfiles disk) x.source_path = false → x.status = .deleted := by
  intro x hx hoff
  rcases reconcile_docs_mem hx with ⟨y, hy, rfl⟩
  have hyx := docAfterPass_frame now (reconTR collections disk st) (reconTD disk st) y
  rw [hyx.2.1] at hoff
  rcases hy with hyold | hynew
  · have hdelfil := @delete_hits st.docs (lfiles disk) y hwf.ids_nodup hyold
    by_cases hst : y.status = DocumentStatus.deleted
    · -- already deleted: the pass does not touch the row
      have hnd : (y.status != DocumentStatus.deleted) = false := by simp [hst]
      have hhits := @TR_hits now collections disk st y hwf hyold
      rw [offDisk_filter_nil hoff, List.filterMap_nil,
          if_neg (by simp [driftB_of_status_ne (by rw [hst]; intro hco; cases hco)]),
          List.nil_append] at hhits
      have hfold := @reindexFoldDoc_of_no_hit now _ _ hhits
      have hnohit : ∀ dd ∈ reconTD disk st, dd.id ≠ y.id := by
        intro dd hdd hddy
        have : dd ∈ (reconTD disk st).filter (fun z => z.id == y.id) :=
          List.mem_filter.mpr ⟨hdd, by simp [hddy]⟩
        rw [show (reconTD disk st).filter (fun z => z.id == y.id) = [] from by
          unfold reconTD
          rw [hdelfil, if_neg (by simp [hnd])]] at this
        cases this
      show (docAfterPass now _ _ y).status = _
      unfold docAfterPass
      rw [hfold, deleteFoldDoc_of_no_hit hnohit]
      exact hst
    · -- orphaned non-deleted row: the delete loop hits it
      have hq : (!onDisk (lfiles disk) y.source_path
          && y.status != DocumentStatus.deleted) = true := by
        simp [hoff, hst]
      have hone : (reconTD disk st).filter (fun z => z.id == y.id) = [y] := by
        unfold reconTD
        rw [hdelfil, if_pos hq]
      have hYmem : y ∈ reconTD disk st ∧ (fun z : Document => z.id == y.id) y = true := by
        have : y ∈ (reconTD disk st).filter (fun z => z.id == y.id) := by
          rw [hone]; exact List.mem_cons_self _ _
        exact ⟨(List.mem_filter.mp this).1, (List.mem_filter.mp this).2⟩
      have hany : (reconTD disk st).any
          (fun dd => dd.id == (reindexFoldDoc now (reconTR collections disk st) y).id)
            = true := by
        rw [(reindexFoldDoc_frame now (reconTR collections disk st) y).1]
        rw [List.any_eq_true]
        exact ⟨y, hYmem.1, hYmem.2⟩
      show (docAfterPass now _ _ y).status = _
      unfold docAfterPass
      rw [deleteFoldDoc_status, if_pos hany]
  · -- a row created in this pass has its path on disk
    rcases newDocsFrom_mem hynew with ⟨m0, hm0, i, hi, rfl⟩
    have hm0lf : m0 ∈ lfiles disk := (reconTI_sublist disk st).subset hm0
    have : onDisk (lfiles disk) (mkNewDoc now i m0).source_path = true := by
      simpa [mkNewDoc] using onDisk_of_mem hm0lf
    rw [this] at hoff
    cases hoff

theorem reconcile_no_drift {now : Nat} {collections : List String}
    {disk : List FileMeta} {st : DBState} (hwf : WF st) :
    ∀ x ∈ (reconcile now collections disk st).1.docs,
      driftB collections x = false := by
  intro x hx
  rcases reconcile_docs_mem hx with ⟨y, hy, rfl⟩
  rcases hy with hyold | hynew
  · by_cases hdel : (reconTD disk st).any
        (fun dd => dd.id == (reindexFoldDoc now (reconTR collections disk st) y).id)
          = true
    · apply driftB_of_status_ne
      show (docAfterPass now _ _ y).status ≠ _
      unfold docAfterPass
      rw [deleteFoldDoc_status, if_pos hdel]
      intro hco; cases hco
    · have hdelf : (reconTD disk st).any
          (fun dd => dd.id == (reindexFoldDoc now (reconTR collections disk st) y).id)
            = false := by
        simpa using hdel
      have hnohit : ∀ dd ∈ reconTD disk st,
          dd.id ≠ (reindexFoldDoc now (reconTR collections disk st) y).id := by
        intro dd hdd
        have := List.any_eq_false.mp hdelf dd hdd
        simpa using this
      have hxy : docAfterPass now (reconTR collections disk st) (reconTD disk st) y
          = reindexFoldDoc now (reconTR collections disk st) y := by
        unfold docAfterPass
        exact deleteFoldDoc_of_no_hit hnohit
      by_cases hhit : (reconTR collections disk st).filter
          (fun e => e.docId == y.id) = []
      · have hfold := @reindexFoldDoc_of_no_hit now _ _ hhit
        rw [hxy, hfold]
        by_cases hdr : driftB collections y = true
        · exfalso
          have hhits := @TR_hits now collections disk st y hwf hyold
          rw [if_pos hdr] at hhits
          rw [hhit] at hhits
          simp at hhits
        · simpa using hdr
      · apply driftB_of_status_ne
        rw [hxy]
        rw [reindexFoldDoc_status_of_hit hhit]
        intro hco; cases hco
  · rcases newDocsFrom_mem hynew with ⟨m0, hm0, i, hi, rfl⟩
    have hfresh := @docAfterPass_fresh_of_wf now collections disk st hwf
      (mkNewDoc now i m0) (by simpa [mkNewDoc] using hi)
    rw [hfresh]
    apply driftB_of_status_ne
    intro hco
    simp [mkNewDoc] at hco

theorem reconcile_snd (now : Nat) (collections : List String) (disk : List FileMeta)
    (st : DBState) :
    (reconcile now collections disk st).2
      = { local_files := (lfiles disk).length,
          db_records := st.docs.length,
          to_index := (reconTI disk st).length,
          to_reindex := (reconTR collections disk st).length,
          to_delete := (reconTD disk st).length,
          chroma_missing := (chromaMissingList collections st.docs).length,
          created := (reconTI disk st).length,
          updated := (reconTR collections disk st).length + (reconTD disk st).length,
          enqueued := (reconTI disk st).length + (reconTR collections disk st).length
                        + (reconTD disk st).length,
          sample_index := ((reconTI disk st).map (fun m => m.source_path)).take 5,
          sample_reindex := ((reconTR collections disk st).map
                              (fun e => e.source_path)).take 5,
          sample_delete := ((reconTD disk st).map (fun d => d.source_path)).take 5,
          sample_chroma_missing := (chromaMissingList collections st.docs).take 5 } :=
  rfl

/-- After one pass (under the disjointness proviso), all four diff lists of a
second pass over the same disk and collection set are empty. -/
theorem reconcile_second_lists_empty {now : Nat} {collections : List String}
    {disk : List FileMeta} {st : DBState}
    (hdisk : disk.Pairwise (fun a b => a.source_path ≠ b.source_path))
    (hwf : WF st) (hdisj : noChangedDrift collections disk st) :
    toIndexList (reconcile now collections disk st).1.docs (lfiles disk) = []
    ∧ toReindexChanged (reconcile now collections disk st).1.docs (lfiles disk) = []
    ∧ toDriftList collections (reconcile now collections disk st).1.docs = []
    ∧ toDeleteList (reconcile now collections disk st).1.docs (lfiles disk) = [] := by
  refine ⟨?_, ?_, ?_, ?_⟩
  · unfold toIndexList
    rw [List.filter_eq_nil_iff]
    intro m hm
    rcases @reconcile_covers_disk now collections disk st m hm with ⟨x, hx, hxp⟩
    rw [Option.isNone_iff_eq_none]
    intro hnone
    exact findByPath_none hnone x hx hxp
  · unfold toReindexChanged
    rw [List.filterMap_eq_nil_iff]
    intro m hm
    cases hfind : findByPath (reconcile now collections disk st).1.docs m.source_path with
    | none => exact changeEntry_of_none hfind
    | some x =>
        rw [changeEntry_of_some hfind]
        have hfp := reconcile_fingerprint hdisk hwf hdisj m hm x
          (findByPath_some hfind).1 (findByPath_some hfind).2
        rw [if_neg (by simp [hfp])]
  · unfold toDriftList
    rw [List.filterMap_eq_nil_iff]
    intro x hx
    exact driftEntry_neg (reconcile_no_drift hwf x hx)
  · unfold toDeleteList
    rw [List.filter_eq_nil_iff]
    intro x hx
    by_cases hod : onDisk (lfiles disk) x.source_path = true
    · simp [hod]
    · have hdel := reconcile_orphans_deleted hwf x hx (by simpa using hod)
      simp [hdel]

/-! Worker lemmas. -/

/-- The `continue` branch of the worker loop (lines 1059-1064). -/
theorem processJob_of_none {docs : List Document} {j : IndexJob}
    (env : WorkerEnv) (now : Nat) (h : findDoc docs j.document_id = none) :
    processJob env now docs j
      = (docs,
         { j with job_status := .failed,
                  error_message := some "Document not found",
                  finished_at := some now },
         0, 0, 1) := by
  unfold processJob; rw [h]

/-- The `try` body of the worker loop, given the fetched document row. -/
theorem processJob_of_some {docs : List Document} {j : IndexJob} {doc : Document}
    (env : WorkerEnv) (now : Nat) (h : findDoc docs j.document_id = some doc) :
    processJob env now docs j
      = (if j.job_type == IndexJobType.delete then
           (if env.cleanupOk (uuid5 doc.source_path) then
              (docs.map (fun d => if d.id == doc.id then
                  { d with status := .deleted, updated_at := now } else d),
               { j with job_status := .succeeded, finished_at := some now }, 1, 1, 0)
            else
              (docs,
               { j with job_status := .failed,
                        error_message := some "cleanup failed",
                        finished_at := some now }, 1, 0, 1))
         else
           (if !(env.fsExists doc.source_path) then
              (docs,
               { j with job_status := .failed,
                        error_message := some ("file not found: " ++ doc.source_path),
                        finished_at := some now }, 1, 0, 1)
            else if env.procOk doc.source_path then
              (docs.map (fun d => if d.id == doc.id then
                  { d with status := .indexed,
                           chroma_collection := some ("document_" ++ uuid5 doc.source_path),
                           version := d.version + 1, updated_at := now } else d),
               { j with job_status := .succeeded, finished_at := some now }, 1, 1, 0)
            else
              (docs,
               { j with job_status := .failed,
                        error_message := some "processing failed",
                        finished_at := some now }, 1, 0, 1))) := by
  unfold processJob; rw [h]

/-- The job row written back by `processJob` keeps the job's primary key. -/
theorem processJob_rec_id (env : WorkerEnv) (now : Nat) (docs : List Document)
    (j : IndexJob) : (processJob env now docs j).2.1.id = j.id := by
  cases hf : findDoc docs j.document_id with
  | none => rw [processJob_of_none env now hf]
  | some doc =>
      rw [processJob_of_some env now hf]
      by_cases h1 : (j.job_type == IndexJobType.delete) = true
      · rw [if_pos h1]
        by_cases h2 : env.cleanupOk (uuid5 doc.source_path) = true
        · rw [if_pos h2]
        · rw [if_neg h2]
      · rw [if_neg h1]
        by_cases h3 : (!env.fsExists doc.source_path) = true
        · rw [if_pos h3]
        · rw [if_neg h3]
          by_cases h4 : env.procOk doc.source_path = true
          · rw [if_pos h4]
          · rw [if_neg h4]

/-- A worker step never inserts, removes, or re-keys document rows. -/
theorem processJob_docs_keys (env : WorkerEnv) (now : Nat) (docs : List Document)
    (j : IndexJob) :
    ((processJob env now docs j).1).map (fun d => (d.id, d.source_path))
      = docs.map (fun d => (d.id, d.source_path)) := by
  cases hf : findDoc docs j.document_id with
  | none => rw [processJob_of_none env now hf]
  | some doc =>
      rw [processJob_of_some env now hf]
      by_cases h1 : (j.job_type == IndexJobType.delete) = true
      · rw [if_pos h1]
        by_cases h2 : env.cleanupOk (uuid5 doc.source_path) = true
        · rw [if_pos h2]
          show (docs.map _).map _ = _
          rw [List.map_map]
          apply List.map_congr_left
          intro x _
          by_cases hx : (x.id == doc.id) = true
          · simp only [Function.comp]; rw [if_pos hx]
          · simp only [Function.comp]; rw [if_neg hx]
        · rw [if_neg h2]
      · rw [if_neg h1]
        by_cases h3 : (!env.fsExists doc.source_path) = true
        · rw [if_pos h3]
        · rw [if_neg h3]
          by_cases h4 : env.procOk doc.source_path = true
          · rw [if_pos h4]
            show (docs.map _).map _ = _
            rw [List.map_map]
            apply List.map_congr_left
            intro x _
            by_cases hx : (x.id == doc.id) = true
            · simp only [Function.comp]; rw [if_pos hx]
            · simp only [Function.comp]; rw [if_neg hx]
          · rw [if_neg h4]

theorem findDoc_isSome_iff {docs : List Document} {i : Nat} :
    (findDoc docs i).isSome = true ↔ i ∈ docs.map (fun d => d.id) := by
  unfold findDoc
  rw [List.find?_isSome]
  constructor
  · rintro ⟨x, hx, hxi⟩
    exact List.mem_map.mpr ⟨x, hx, by simpa using hxi⟩
  · intro h
    rcases List.mem_map.mp h with ⟨x, hx, rfl⟩
    exact ⟨x, hx, by simp⟩

theorem docs_keys_ids {docs docs' : List Document}
    (h : docs'.map (fun d => (d.id, d.source_path))
      = docs.map (fun d => (d.id, d.source_path))) :
    docs'.map (fun d => d.id) = docs.map (fun d => d.id) := by
  have h2 := congrArg (List.map Prod.fst) h
  rw [List.map_map, List.map_map] at h2
  exact h2

theorem findDoc_isSome_congr {docs docs' : List Document}
    (h : docs'.map (fun d => (d.id, d.source_path))
      = docs.map (fun d => (d.id, d.source_path))) (i : Nat) :
    (findDoc docs' i).isSome = (findDoc docs i).isSome := by
  by_cases h1 : (findDoc docs' i).isSome = true
  · rw [h1]
    have := findDoc_isSome_iff.mp h1
    rw [docs_keys_ids h] at this
    exact (findDoc_isSome_iff.mpr this).symm
  · have h1f : (findDoc docs' i).isSome = false := by simpa using h1
    rw [h1f]
    by_cases h2 : (findDoc docs i).isSome = true
    · exfalso
      have := findDoc_isSome_iff.mp h2
      rw [← docs_keys_ids h] at this
      exact h1 (findDoc_isSome_iff.mpr this)
    · simpa using (Ne.symm h2 : _)

/-- Every worker step accounts one terminal outcome, and increments
`processed` exactly when the document row exists. -/
theorem processJob_counters (env : WorkerEnv) (now : Nat) (docs : List Document)
    (j : IndexJob) :
    (processJob env now docs j).2.2.2.1 + (processJob env now docs j).2.2.2.2 = 1
    ∧ (processJob env now docs j).2.2.1
        = (if (findDoc docs j.document_id).isSome = true then 1 else 0) := by
  cases hf : findDoc docs j.document_id with
  | none => rw [processJob_of_none env now hf]; exact ⟨rfl, by simp⟩
  | some doc =>
      rw [processJob_of_some env now hf]
      by_cases h1 : (j.job_type == IndexJobType.delete) = true
      · rw [if_pos h1]
        by_cases h2 : env.cleanupOk (uuid5 doc.source_path) = true
        · rw [if_pos h2]; exact ⟨rfl, by simp⟩
        · rw [if_neg h2]; exact ⟨rfl, by simp⟩
      · rw [if_neg h1]
        by_cases h3 : (!env.fsExists doc.source_path) = true
        · rw [if_pos h3]; exact ⟨rfl, by simp⟩
        · rw [if_neg h3]
          by_cases h4 : env.procOk doc.source_path = true
          · rw [if_pos h4]; exact ⟨rfl, by simp⟩
          · rw [if_neg h4]; exact ⟨rfl, by simp⟩

theorem runJobs_docs_keys (env : WorkerEnv) (now : Nat) :
    ∀ (L : List IndexJob) (docs : List Document) (jobs : List IndexJob)
      (c : WorkerCounts),
      ((runJobs env now (docs, jobs, c) L).1).map (fun d => (d.id, d.source_path))
        = docs.map (fun d => (d.id, d.source_path)) := by
  intro L
  induction L with
  | nil => intro docs jobs c; rfl
  | cons j t ih =>
      intro docs jobs c
      show ((runJobs env now ((processJob env now docs j).1, _, _) t).1).map _ = _
      rw [ih]
      exact processJob_docs_keys env now docs j

theorem runJobs_counts (env : WorkerEnv) (now : Nat) :
    ∀ (L : List IndexJob) (docs : List Document) (jobs : List IndexJob)
      (c : WorkerCounts),
      (runJobs env now (docs, jobs, c) L).2.2.processed
          = c.processed
            + (L.filter (fun j => (findDoc docs j.document_id).isSome)).length
      ∧ (runJobs env now (docs, jobs, c) L).2.2.succeeded
          + (runJobs env now (docs, jobs, c) L).2.2.failed
        = c.succeeded + c.failed + L.length := by
  intro L
  induction L with
  | nil => intro docs jobs c; exact ⟨rfl, rfl⟩
  | cons j t ih =>
      intro docs jobs c
      have hc := processJob_counters env now docs j
      have hkeys := processJob_docs_keys env now docs j
      have hstep : runJobs env now (docs, jobs, c) (j :: t)
          = runJobs env now ((processJob env now docs j).1,
              updateJob jobs j.id (processJob env now docs j).2.1,
              { processed := c.processed + (processJob env now docs j).2.2.1,
                succeeded := c.succeeded + (processJob env now docs j).2.2.2.1,
                failed := c.failed + (processJob env now docs j).2.2.2.2 }) t := rfl
      rw [hstep]
      rcases ih (processJob env now docs j).1
        (updateJob jobs j.id (processJob env now docs j).2.1)
        { processed := c.processed + (processJob env now docs j).2.2.1,
          succeeded := c.succeeded + (processJob env now docs j).2.2.2.1,
          failed := c.failed + (processJob env now docs j).2.2.2.2 } with ⟨ihp, ihsf⟩
      try simp only [] at ihp ihsf
      constructor
      · rw [ihp]
        have hfilt : (t.filter
              (fun j0 => (findDoc (processJob env now docs j).1 j0.document_id).isSome))
            = (t.filter (fun j0 => (findDoc docs j0.document_id).isSome)) := by
          apply List.filter_congr
          intro j0 _
          rw [findDoc_isSome_congr hkeys]
        rw [hfilt]
        by_cases hj : (findDoc docs j.document_id).isSome = true
        · rw [List.filter_cons_of_pos (by simp [hj])]
          rw [hc.2, if_pos hj]
          simp only [List.length_cons]
          try simp only []
          omega
        · rw [List.filter_cons_of_neg (by simp [hj])]
          rw [hc.2, if_neg hj]
          try simp only []
          omega
      · rw [ihsf]
        simp only [List.length_cons]
        try simp only []
        omega

/-- Updating a job row whose key is touched by none of the remaining loop
iterations commutes with running the loop. -/
theorem runJobs_update_comm (env : WorkerEnv) (now : Nat) :
    ∀ (L : List IndexJob) (docs : List Document) (jobs : List IndexJob)
      (c : WorkerCounts) (i : Nat) (r : IndexJob),
      r.id = i → (∀ j ∈ L, j.id ≠ i) →
      runJobs env now (docs, updateJob jobs i r, c) L
        = ((runJobs env now (docs, jobs, c) L).1,
           updateJob (runJobs env now (docs, jobs, c) L).2.1 i r,
           (runJobs env now (docs, jobs, c) L).2.2) := by
  intro L
  induction L with
  | nil => intro docs jobs c i r hr hL; rfl
  | cons j t ih =>
      intro docs jobs c i r hr hL
      have hji : j.id ≠ i := hL j (List.mem_cons_self _ _)
      have hcomm : updateJob (updateJob jobs i r) j.id (processJob env now docs j).2.1
          = updateJob (updateJob jobs j.id (processJob env now docs j).2.1) i r := by
        have hr0 : (processJob env now docs j).2.1.id = j.id :=
          processJob_rec_id env now docs j
        unfold updateJob
        rw [List.map_map, List.map_map]
        apply List.map_congr_left
        intro x _
        simp only [Function.comp]
        by_cases hxi : x.id = i
        · have h1 : (x.id == i) = true := by simp [hxi]
          have h2 : (x.id == j.id) = false := by
            rw [beq_eq_false_iff_ne, hxi]
            exact fun hc => hji hc.symm
          have h3 : (r.id == j.id) = false := by
            rw [beq_eq_false_iff_ne, hr]
            exact fun hc => hji hc.symm
          simp [h1, h2, h3]
        · have h1 : (x.id == i) = false := by
            rw [beq_eq_false_iff_ne]; exact hxi
          by_cases hxj : x.id = j.id
          · have h2 : (x.id == j.id) = true := by simp [hxj]
            have h4 : ((processJob env now docs j).2.1.id == i) = false := by
              rw [beq_eq_false_iff_ne, hr0]
              exact hji
            simp [h1, h2, h4]
          · have h2 : (x.id == j.id) = false := by
              rw [beq_eq_false_iff_ne]; exact hxj
            simp [h1, h2]
      show runJobs env now ((processJob env now docs j).1,
          updateJob (updateJob jobs i r) j.id (processJob env now docs j).2.1, _) t = _
      rw [hcomm]
      rw [ih _ _ _ i r hr (fun j0 hj0 => hL j0 (List.mem_cons_of_mem _ hj0))]
      rfl

/-- Counter threading: the loop result is the zero-started result shifted by
the initial counters; documents and job rows do not depend on the counters. -/
theorem runJobs_counts_shift (env : WorkerEnv) (now : Nat) :
    ∀ (L : List IndexJob) (docs : List Document) (jobs : List IndexJob)
      (c : WorkerCounts),
      runJobs env now (docs, jobs, c) L
        = ((runJobs env now (docs, jobs, ⟨0, 0, 0⟩) L).1,
           (runJobs env now (docs, jobs, ⟨0, 0, 0⟩) L).2.1,
           { processed := c.processed
               + (runJobs env now (docs, jobs, ⟨0, 0, 0⟩) L).2.2.processed,
             succeeded := c.succeeded
               + (runJobs env now (docs, jobs, ⟨0, 0, 0⟩) L).2.2.succeeded,
             failed := c.failed
               + (runJobs env now (docs, jobs, ⟨0, 0, 0⟩) L).2.2.failed }) := by
  intro L
  induction L with
  | nil =>
      intro docs jobs c
      show (docs, jobs, c) = (docs, jobs,
        ({ processed := c.processed + 0, succeeded := c.succeeded + 0,
           failed := c.failed + 0 } : WorkerCounts))
      simp
  | cons j t ih =>
      intro docs jobs c
      show runJobs env now ((processJob env now docs j).1, _, _) t = _
      rw [ih (processJob env now docs j).1
        (updateJob jobs j.id (processJob env now docs j).2.1)
        { processed := c.processed + (processJob env now docs j).2.2.1,
          succeeded := c.succeeded + (processJob env now docs j).2.2.2.1,
          failed := c.failed + (processJob env now docs j).2.2.2.2 }]
      rw [show runJobs env now (docs, jobs, (⟨0, 0, 0⟩ : WorkerCounts)) (j :: t)
            = runJobs env now ((processJob env now docs j).1,
                updateJob jobs j.id (processJob env now docs j).2.1,
                { processed := 0 + (processJob env now docs j).2.2.1,
                  succeeded := 0 + (processJob env now docs j).2.2.2.1,
                  failed := 0 + (processJob env now docs j).2.2.2.2 }) t from rfl]
      rw [ih (processJob env now docs j).1
        (updateJob jobs j.id (processJob env now docs j).2.1)
        { processed := 0 + (processJob env now docs j).2.2.1,
          succeeded := 0 + (processJob env now docs j).2.2.2.1,
          failed := 0 + (processJob env now docs j).2.2.2.2 }]
      simp only [Prod.mk.injEq, WorkerCounts.mk.injEq]
      refine ⟨?_, ?_, ?_, ?_, ?_⟩ <;> first | trivial | ((try simp only []); omega)

theorem findDoc_none_congr {docs docs' : List Document}
    (h : docs'.map (fun d => (d.id, d.source_path))
      = docs.map (fun d => (d.id, d.source_path))) {i : Nat}
    (hn : findDoc docs i = none) : findDoc docs' i = none := by
  have h1 : (findDoc docs i).isSome = false := by rw [hn]; rfl
  have h2 := findDoc_isSome_congr h i
  rw [h1] at h2
  rcases hval : findDoc docs' i with _ | v
  · rfl
  · rw [hval] at h2; cases h2

/-- Inserting a job whose document row is missing into the middle of a batch:
the job itself is failed with "Document not found", and the documents,
every other job row, and the success count are exactly those of the batch
without it; only the failure count grows by one. -/
theorem runJobs_insert_failing (env : WorkerEnv) (now : Nat) :
    ∀ (pre : List IndexJob) (post : List IndexJob) (docs : List Document)
      (jobs : List IndexJob) (c : WorkerCounts) (jbad : IndexJob),
      findDoc docs jbad.document_id = none →
      (∀ j ∈ pre ++ post, j.id ≠ jbad.id) →
      runJobs env now (docs, jobs, c) (pre ++ jbad :: post)
        = ((runJobs env now (docs, jobs, c) (pre ++ post)).1,
           updateJob (runJobs env now (docs, jobs, c) (pre ++ post)).2.1 jbad.id
             { jbad with job_status := .failed,
                         error_message := some "Document not found",
                         finished_at := some now },
           { processed := (runJobs env now (docs, jobs, c) (pre ++ post)).2.2.processed,
             succeeded := (runJobs env now (docs, jobs, c) (pre ++ post)).2.2.succeeded,
             failed := (runJobs env now (docs, jobs, c) (pre ++ post)).2.2.failed + 1 }) := by
  intro pre
  induction pre with
  | nil =>
      intro post docs jobs c jbad hmiss hids
      have hstep : processJob env now docs jbad
          = (docs,
             { jbad with job_status := .failed,
                         error_message := some "Document not found",
                         finished_at := some now },
             0, 0, 1) := processJob_of_none env now hmiss
      show runJobs env now ((processJob env now docs jbad).1,
          updateJob jobs jbad.id (processJob env now docs jbad).2.1,
          { processed := c.processed + (processJob env now docs jbad).2.2.1,
            succeeded := c.succeeded + (processJob env now docs jbad).2.2.2.1,
            failed := c.failed + (processJob env now docs jbad).2.2.2.2 }) post = _
      rw [hstep]
      have hpost : ∀ j ∈ post, j.id ≠ jbad.id := by
        intro j hj
        exact hids j (by simpa using hj)
      rw [runJobs_update_comm env now post docs jobs
        { processed := c.processed + 0, succeeded := c.succeeded + 0,
          failed := c.failed + 1 } jbad.id
        { jbad with job_status := .failed,
                    error_message := some "Document not found",
                    finished_at := some now } rfl hpost]
      simp only [List.nil_append]
      rw [runJobs_counts_shift env now post docs jobs
        { processed := c.processed + 0, succeeded := c.succeeded + 0,
          failed := c.failed + 1 }]
      rw [runJobs_counts_shift env now post docs jobs c]
      simp only [Prod.mk.injEq, WorkerCounts.mk.injEq]
      refine ⟨?_, ?_, ?_, ?_, ?_⟩ <;> first | trivial | ((try simp only []); omega)
  | cons p pre' ih =>
      intro post docs jobs c jbad hmiss hids
      have hkeys := processJob_docs_keys env now docs p
      have hmiss' : findDoc (processJob env now docs p).1 jbad.document_id = none :=
        findDoc_none_congr hkeys hmiss
      have hids' : ∀ j ∈ pre' ++ post, j.id ≠ jbad.id := by
        intro j hj
        exact hids j (by simpa using Or.inr (List.mem_append.mp hj |>.elim Or.inl Or.inr))
      show runJobs env now ((processJob env now docs p).1,
          updateJob jobs p.id (processJob env now docs p).2.1,
          { processed := c.processed + (processJob env now docs p).2.2.1,
            succeeded := c.succeeded + (processJob env now docs p).2.2.2.1,
            failed := c.failed + (processJob env now docs p).2.2.2.2 })
          (pre' ++ jbad :: post) = _
      rw [ih post (processJob env now docs p).1
        (updateJob jobs p.id (processJob env now docs p).2.1)
        { processed := c.processed + (processJob env now docs p).2.2.1,
          succeeded := c.succeeded + (processJob env now docs p).2.2.2.1,
          failed := c.failed + (processJob env now docs p).2.2.2.2 } jbad hmiss' hids']
      rfl

/-! Helpers for the drift condition, version accounting, and dequeue. -/

/-- The expected collection name is always a truthy (non-empty) string: the
fall-back `document_{uuid5}` name is non-empty, and a stored empty string is
replaced by it. -/
theorem expectedCollection_ne_empty (d : Document) : expectedCollection d ≠ "" := by
  have hne : ("document_" ++ uuid5 d.source_path) ≠ "" := by
    intro h
    have hd := congrArg String.data h
    rw [String.data_append] at hd
    rcases List.append_eq_nil.mp hd with ⟨h1, _⟩
    cases h1
  unfold expectedCollection
  cases d.chroma_collection with
  | none => exact hne
  | some s =>
      show (if (s == "") = true then "document_" ++ uuid5 d.source_path else s) ≠ ""
      by_cases hs : (s == "") = true
      · rw [if_pos hs]; exact hne
      · rw [if_neg hs]
        intro h
        exact hs (by simp [h])

theorem driftB_true_of {collections : List String} {d : Document}
    (hst : d.status = .indexed)
    (habs : collections.contains (expectedCollection d) = false) :
    driftB collections d = true := by
  have h1 : (expectedCollection d != "") = true := by
    rw [bne_iff_ne]
    exact expectedCollection_ne_empty d
  have h2 : (!(collections.contains (expectedCollection d))) = true := by
    rw [habs]; rfl
  have h3 : (d.status == DocumentStatus.indexed) = true := by simp [hst]
  unfold driftB
  rw [h3, h1, h2]
  rfl

/-- Reconcile never changes the version of a pre-existing row; the rows it
creates all carry version 1. -/
theorem reconcile_version_frame (now : Nat) (collections : List String)
    (disk : List FileMeta) (st : DBState) :
    ∃ L, (reconcile now collections disk st).1.docs.map (fun d => (d.id, d.version))
        = st.docs.map (fun d => (d.id, d.version)) ++ L
      ∧ ∀ p ∈ L, p.2 = 1 := by
  refine ⟨(newDocsFrom now st.nextDocId (reconTI disk st)).map
      (fun d => (d.id, d.version)), ?_, ?_⟩
  · rw [reconcile_docs, List.map_map]
    have hpt : ((fun d : Document => (d.id, d.version))
          ∘ docAfterPass now (reconTR collections disk st) (reconTD disk st))
        = fun d : Document => (d.id, d.version) := by
      funext x
      have hf := docAfterPass_frame now (reconTR collections disk st)
        (reconTD disk st) x
      simp [Function.comp, hf.1, hf.2.2]
    rw [hpt, List.map_append]
  · intro p hp
    rcases List.mem_map.mp hp with ⟨x, hx, rfl⟩
    rcases newDocsFrom_mem hx with ⟨m, hm, i, hi, rfl⟩
    rfl

/-- Sortedness and contents of `dequeue_batch`. -/
theorem dequeue_batch_spec (jobs : List IndexJob) (limit : Nat) :
    (dequeue_batch jobs limit).length ≤ limit
    ∧ (∀ j ∈ dequeue_batch jobs limit, j.job_status = .queued)
    ∧ (dequeue_batch jobs limit).Pairwise
        (fun a b => a.created_at ≤ b.created_at) := by
  refine ⟨?_, ?_, ?_⟩
  · unfold dequeue_batch
    rw [List.length_take]
    exact Nat.min_le_left _ _
  · intro j hj
    have h1 : j ∈ (jobs.filter (fun j0 => j0.job_status == .queued)).mergeSort
        (fun a b => a.created_at ≤ b.created_at) :=
      List.take_subset _ _ hj
    rw [List.mem_mergeSort] at h1
    have := (List.mem_filter.mp h1).2
    simpa using this
  · have hsorted : ((jobs.filter (fun j0 => j0.job_status == .queued)).mergeSort
        (fun a b => a.created_at ≤ b.created_at)).Pairwise
          (fun a b => (a.created_at ≤ b.created_at : Bool)) := by
      apply List.sorted_mergeSort
      · intro a b c hab hbc
        simp only [decide_eq_true_eq] at hab hbc ⊢
        omega
      · intro a b
        rcases Nat.le_total a.created_at b.created_at with h | h <;>
          simp [h]
    have htake := List.Pairwise.sublist (List.take_sublist limit _) hsorted
    exact htake.imp (by intro a b hab; simpa using hab)

theorem newDocsFrom_filter_at (now : Nat) :
    ∀ (L : List FileMeta) (did : Nat) (m : FileMeta),
      L.Pairwise (fun a b => a.source_path ≠ b.source_path) → m ∈ L →
      ∃ k, k < L.length
        ∧ (newDocsFrom now did L).filter (fun x => x.source_path == m.source_path)
          = [mkNewDoc now (did + k) m] := by
  intro L
  induction L with
  | nil => intro did m _ hm; cases hm
  | cons m0 t ih =>
      intro did m hp hm
      rcases List.pairwise_cons.mp hp with ⟨h0, ht⟩
      rcases List.mem_cons.mp hm with rfl | hmt
      · refine ⟨0, by simp, ?_⟩
        rw [show newDocsFrom now did (m :: t)
              = mkNewDoc now did m :: newDocsFrom now (did + 1) t from rfl]
        rw [List.filter_cons_of_pos (by simp [mkNewDoc])]
        have htail : (newDocsFrom now (did + 1) t).filter
            (fun x => x.source_path == m.source_path) = [] := by
          rw [List.filter_eq_nil_iff]
          intro x hx
          rcases newDocsFrom_mem hx with ⟨m1, hm1, i, _, rfl⟩
          simp [mkNewDoc]
          exact (h0 m1 hm1).symm
        rw [htail, Nat.add_zero]
      · have hne : m0.source_path ≠ m.source_path := h0 m hmt
        rw [show newDocsFrom now did (m0 :: t)
              = mkNewDoc now did m0 :: newDocsFrom now (did + 1) t from rfl]
        rw [List.filter_cons_of_neg (by simp [mkNewDoc]; exact hne)]
        rcases ih (did + 1) m ht hmt with ⟨k, hk, hfil⟩
        refine ⟨k + 1, by simpa using hk, ?_⟩
        rw [hfil]
        rw [show did + (k + 1) = (did + 1) + k by omega]

/-!
## Claim theorems

Each theorem below settles one claim of the specification against the
embedded code.
-/

/-- C6: for every INDEX or REINDEX job whose source file no longer exists
when the worker executes it, the worker marks the job FAILED with a
file-not-found error message, and the owning Document row keeps all of its
fields unchanged (in particular its prior in-flight status). -/
theorem worker_file_not_found (env : WorkerEnv) (now : Nat) (docs : List Document)
    (j : IndexJob) (doc : Document)
    (hfind : findDoc docs j.document_id = some doc)
    (htype : j.job_type ≠ .delete)
    (hfs : env.fsExists doc.source_path = false) :
    (processJob env now docs j).1 = docs
    ∧ (processJob env now docs j).2.1
        = { j with job_status := .failed,
                   error_message := some ("file not found: " ++ doc.source_path),
                   finished_at := some now } := by
  rw [processJob_of_some env now hfind]
  have h1 : (j.job_type == IndexJobType.delete) = false := by
    rw [beq_eq_false_iff_ne]; exact htype
  rw [if_neg (by simp [h1])]
  rw [if_pos (by simp [hfs])]
  exact ⟨rfl, rfl⟩

/-- Witness for C6 at a concrete state: one REINDEXING document whose file is
gone; the job fails with the message and the row is untouched. -/
theorem worker_file_not_found_witness :
    (processJob ⟨fun _ => false, fun _ => true, fun _ => true⟩ 5
        [⟨0, "u/a.pdf", none, 1, 0, "c1", .reindexing, none, 1, 0, 0⟩]
        ⟨0, 0, .reindex, .queued, none, 0, none⟩).1
      = [⟨0, "u/a.pdf", none, 1, 0, "c1", .reindexing, none, 1, 0, 0⟩]
    ∧ (processJob ⟨fun _ => false, fun _ => true, fun _ => true⟩ 5
        [⟨0, "u/a.pdf", none, 1, 0, "c1", .reindexing, none, 1, 0, 0⟩]
        ⟨0, 0, .reindex, .queued, none, 0, none⟩).2.1
      = ⟨0, 0, .reindex, .failed, some ("file not found: " ++ "u/a.pdf"), 0, some 5⟩ :=
  worker_file_not_found ⟨fun _ => false, fun _ => true, fun _ => true⟩ 5
    [⟨0, "u/a.pdf", none, 1, 0, "c1", .reindexing, none, 1, 0, 0⟩]
    ⟨0, 0, .reindex, .queued, none, 0, none⟩
    ⟨0, "u/a.pdf", none, 1, 0, "c1", .reindexing, none, 1, 0, 0⟩
    (by decide) (by decide) rfl

/-- C5: for every INDEX or REINDEX job whose source file exists and whose
processing succeeds, the worker sets the document's status to INDEXED, the
collection pointer to the deterministic name, bumps the version by one,
stamps the timestamp, and marks the job SUCCEEDED with `finished_at` set;
and a reconcile pass never changes the version of a pre-existing row (its
new rows all carry version 1), so version changes only on this success
path. -/
theorem worker_success_postcondition (env : WorkerEnv) (now : Nat)
    (docs : List Document) (j : IndexJob) (doc : Document)
    (hfind : findDoc docs j.document_id = some doc)
    (htype : j.job_type ≠ .delete)
    (hfs : env.fsExists doc.source_path = true)
    (hproc : env.procOk doc.source_path = true) :
    (findDoc (processJob env now docs j).1 doc.id
        = some { doc with
            status := .indexed,
            chroma_collection := some ("document_" ++ uuid5 doc.source_path),
            version := doc.version + 1, updated_at := now }
     ∧ (processJob env now docs j).2.1
        = { j with job_status := .succeeded, finished_at := some now })
    ∧ ∀ (now2 : Nat) (collections : List String) (disk : List FileMeta)
        (st : DBState),
        ∃ L, (reconcile now2 collections disk st).1.docs.map
              (fun d => (d.id, d.version))
            = st.docs.map (fun d => (d.id, d.version)) ++ L
          ∧ ∀ p ∈ L, p.2 = 1 := by
  constructor
  · rw [processJob_of_some env now hfind]
    have h1 : (j.job_type == IndexJobType.delete) = false := by
      rw [beq_eq_false_iff_ne]; exact htype
    rw [if_neg (by simp [h1])]
    rw [if_neg (by simp [hfs])]
    rw [if_pos hproc]
    refine ⟨?_, rfl⟩
    unfold findDoc
    have hdid : doc.id = j.document_id := by
      simpa using List.find?_some hfind
    have hpf : ((fun d : Document => d.id == doc.id) ∘ (fun d : Document =>
        if d.id == doc.id then
          { d with
              status := .indexed,
              chroma_collection := some ("document_" ++ uuid5 doc.source_path),
              version := d.version + 1, updated_at := now }
        else d))
        = fun d : Document => d.id == doc.id := by
      funext x
      simp only [Function.comp]
      by_cases hx : (x.id == doc.id) = true
      · rw [if_pos hx]
      · rw [if_neg hx]
    show List.find? _ (docs.map _) = _
    rw [List.find?_map, hpf]
    have hfind2 : docs.find? (fun d => d.id == doc.id) = some doc := by
      have : (fun d : Document => d.id == doc.id)
          = fun d : Document => d.id == j.document_id := by
        funext x; rw [hdid]
      rw [this]
      exact hfind
    rw [hfind2]
    simp only [Option.map_some']
    rw [show ((if doc.id == doc.id then
        { doc with
            status := .indexed,
            chroma_collection := some ("document_" ++ uuid5 doc.source_path),
            version := doc.version + 1, updated_at := now }
      else doc) : Document)
        = { doc with
            status := .indexed,
            chroma_collection := some ("document_" ++ uuid5 doc.source_path),
            version := doc.version + 1, updated_at := now } from
      if_pos (by simp)]
  · intro now2 collections disk st
    exact reconcile_version_frame now2 collections disk st

/-- Witness for C5 at a concrete state: a PENDING document at version 3 is
indexed, reaching version 4 with the deterministic collection name. -/
theorem worker_success_postcondition_witness :
    (findDoc (processJob ⟨fun _ => true, fun _ => true, fun _ => true⟩ 7
        [⟨2, "u/b.pdf", none, 9, 1, "c9", .pending, none, 3, 0, 0⟩]
        ⟨4, 2, .index, .queued, none, 1, none⟩).1 2
      = some ⟨2, "u/b.pdf", none, 9, 1, "c9", .indexed,
          some ("document_" ++ uuid5 "u/b.pdf"), 4, 0, 7⟩)
    ∧ (processJob ⟨fun _ => true, fun _ => true, fun _ => true⟩ 7
        [⟨2, "u/b.pdf", none, 9, 1, "c9", .pending, none, 3, 0, 0⟩]
        ⟨4, 2, .index, .queued, none, 1, none⟩).2.1
      = ⟨4, 2, .index, .succeeded, none, 1, some 7⟩ :=
  (worker_success_postcondition ⟨fun _ => true, fun _ => true, fun _ => true⟩ 7
    [⟨2, "u/b.pdf", none, 9, 1, "c9", .pending, none, 3, 0, 0⟩]
    ⟨4, 2, .index, .queued, none, 1, none⟩
    ⟨2, "u/b.pdf", none, 9, 1, "c9", .pending, none, 3, 0, 0⟩
    (by decide) (by decide) rfl rfl).1

/-- C4: a job whose Document row does not exist is immediately failed with a
"Document not found" error; removing it from the batch changes nothing about
the final documents, the other jobs' rows, or the success count — only the
failure count drops by one.  Moreover its processing consults no external
capability: the step's result is the same under every environment. -/
theorem worker_partial_failure_isolation (env : WorkerEnv) (now : Nat)
    (docs : List Document) (jobs : List IndexJob) (c : WorkerCounts)
    (pre post : List IndexJob) (jbad : IndexJob)
    (hmiss : findDoc docs jbad.document_id = none)
    (hids : ∀ j ∈ pre ++ post, j.id ≠ jbad.id) :
    runJobs env now (docs, jobs, c) (pre ++ jbad :: post)
      = ((runJobs env now (docs, jobs, c) (pre ++ post)).1,
         updateJob (runJobs env now (docs, jobs, c) (pre ++ post)).2.1 jbad.id
           { jbad with job_status := .failed,
                       error_message := some "Document not found",
                       finished_at := some now },
         { processed := (runJobs env now (docs, jobs, c) (pre ++ post)).2.2.processed,
           succeeded := (runJobs env now (docs, jobs, c) (pre ++ post)).2.2.succeeded,
           failed := (runJobs env now (docs, jobs, c) (pre ++ post)).2.2.failed + 1 })
    ∧ ∀ (env2 : WorkerEnv) (docs0 : List Document),
        findDoc docs0 jbad.document_id = none →
        processJob env now docs0 jbad = processJob env2 now docs0 jbad :=
  ⟨runJobs_insert_failing env now pre post docs jobs c jbad hmiss hids,
   fun env2 docs0 h0 => by
     rw [processJob_of_none env now h0, processJob_of_none env2 now h0]⟩

/-- Witness for C4: the specification's three-job batch, where the middle
job's document row is missing. -/
theorem worker_partial_failure_isolation_witness :
    runJobs ⟨fun _ => true, fun _ => true, fun _ => true⟩ 9
        ([⟨0, "u/a.pdf", none, 1, 0, "c1", .pending, none, 1, 0, 0⟩,
          ⟨2, "u/c.pdf", none, 3, 0, "c3", .pending, none, 1, 0, 0⟩],
         [⟨10, 0, .index, .queued, none, 1, none⟩,
          ⟨11, 7, .index, .queued, none, 2, none⟩,
          ⟨12, 2, .index, .queued, none, 3, none⟩], ⟨0, 0, 0⟩)
        ([⟨10, 0, .index, .queued, none, 1, none⟩]
          ++ ⟨11, 7, .index, .queued, none, 2, none⟩
            :: [⟨12, 2, .index, .queued, none, 3, none⟩])
      = ((runJobs ⟨fun _ => true, fun _ => true, fun _ => true⟩ 9
            ([⟨0, "u/a.pdf", none, 1, 0, "c1", .pending, none, 1, 0, 0⟩,
              ⟨2, "u/c.pdf", none, 3, 0, "c3", .pending, none, 1, 0, 0⟩],
             [⟨10, 0, .index, .queued, none, 1, none⟩,
              ⟨11, 7, .index, .queued, none, 2, none⟩,
              ⟨12, 2, .index, .queued, none, 3, none⟩], ⟨0, 0, 0⟩)
            ([⟨10, 0, .index, .queued, none, 1, none⟩]
              ++ [⟨12, 2, .index, .queued, none, 3, none⟩])).1,
         updateJob (runJobs ⟨fun _ => true, fun _ => true, fun _ => true⟩ 9
            ([⟨0, "u/a.pdf", none, 1, 0, "c1", .pending, none, 1, 0, 0⟩,
              ⟨2, "u/c.pdf", none, 3, 0, "c3", .pending, none, 1, 0, 0⟩],
             [⟨10, 0, .index, .queued, none, 1, none⟩,
              ⟨11, 7, .index, .queued, none, 2, none⟩,
              ⟨12, 2, .index, .queued, none, 3, none⟩], ⟨0, 0, 0⟩)
            ([⟨10, 0, .index, .queued, none, 1, none⟩]
              ++ [⟨12, 2, .index, .queued, none, 3, none⟩])).2.1 11
           ⟨11, 7, .index, .failed, some "Document not found", 2, some 9⟩,
         { processed := (runJobs ⟨fun _ => true, fun _ => true, fun _ => true⟩ 9
            ([⟨0, "u/a.pdf", none, 1, 0, "c1", .pending, none, 1, 0, 0⟩,
              ⟨2, "u/c.pdf", none, 3, 0, "c3", .pending, none, 1, 0, 0⟩],
             [⟨10, 0, .index, .queued, none, 1, none⟩,
              ⟨11, 7, .index, .queued, none, 2, none⟩,
              ⟨12, 2, .index, .queued, none, 3, none⟩], ⟨0, 0, 0⟩)
            ([⟨10, 0, .index, .queued, none, 1, none⟩]
              ++ [⟨12, 2, .index, .queued, none, 3, none⟩])).2.2.processed,
           succeeded := (runJobs ⟨fun _ => true, fun _ => true, fun _ => true⟩ 9
            ([⟨0, "u/a.pdf", none, 1, 0, "c1", .pending, none, 1, 0, 0⟩,
              ⟨2, "u/c.pdf", none, 3, 0, "c3", .pending, none, 1, 0, 0⟩],
             [⟨10, 0, .index, .queued, none, 1, none⟩,
              ⟨11, 7, .index, .queued, none, 2, none⟩,
              ⟨12, 2, .index, .queued, none, 3, none⟩], ⟨0, 0, 0⟩)
            ([⟨10, 0, .index, .queued, none, 1, none⟩]
              ++ [⟨12, 2, .index, .queued, none, 3, none⟩])).2.2.succeeded,
           failed := (runJobs ⟨fun _ => true, fun _ => true, fun _ => true⟩ 9
            ([⟨0, "u/a.pdf", none, 1, 0, "c1", .pending, none, 1, 0, 0⟩,
              ⟨2, "u/c.pdf", none, 3, 0, "c3", .pending, none, 1, 0, 0⟩],
             [⟨10, 0, .index, .queued, none, 1, none⟩,
              ⟨11, 7, .index, .queued, none, 2, none⟩,
              ⟨12, 2, .index, .queued, none, 3, none⟩], ⟨0, 0, 0⟩)
            ([⟨10, 0, .index, .queued, none, 1, none⟩]
              ++ [⟨12, 2, .index, .queued, none, 3, none⟩])).2.2.failed + 1 }) :=
  (worker_partial_failure_isolation ⟨fun _ => true, fun _ => true, fun _ => true⟩ 9
    [⟨0, "u/a.pdf", none, 1, 0, "c1", .pending, none, 1, 0, 0⟩,
     ⟨2, "u/c.pdf", none, 3, 0, "c3", .pending, none, 1, 0, 0⟩]
    [⟨10, 0, .index, .queued, none, 1, none⟩,
     ⟨11, 7, .index, .queued, none, 2, none⟩,
     ⟨12, 2, .index, .queued, none, 3, none⟩] ⟨0, 0, 0⟩
    [⟨10, 0, .index, .queued, none, 1, none⟩]
    [⟨12, 2, .index, .queued, none, 3, none⟩]
    ⟨11, 7, .index, .queued, none, 2, none⟩
    (by decide) (by decide)).1

/-- C10: the worker's returned `processed` count equals the number of
dequeued jobs whose Document row exists; every dequeued job contributes
exactly one of `succeeded`/`failed`; hence `processed = succeeded + failed`
exactly when every dequeued job's Document exists. -/
theorem worker_count_accounting :
    ∀ (env : WorkerEnv) (now limit : Nat) (st : DBState),
      (run_index_worker env now limit st).2.processed
          = ((dequeue_batch st.jobs limit).filter
              (fun j => (findDoc st.docs j.document_id).isSome)).length
      ∧ (run_index_worker env now limit st).2.succeeded
          + (run_index_worker env now limit st).2.failed
          = (dequeue_batch st.jobs limit).length
      ∧ ((run_index_worker env now limit st).2.processed
            = (run_index_worker env now limit st).2.succeeded
              + (run_index_worker env now limit st).2.failed
          ↔ ∀ j ∈ dequeue_batch st.jobs limit,
              (findDoc st.docs j.document_id).isSome = true) := by
  intro env now limit st
  have hc := runJobs_counts env now (dequeue_batch st.jobs limit) st.docs st.jobs
    ⟨0, 0, 0⟩
  have hp : (run_index_worker env now limit st).2.processed
      = (runJobs env now (st.docs, st.jobs, ⟨0, 0, 0⟩)
          (dequeue_batch st.jobs limit)).2.2.processed := rfl
  have hs : (run_index_worker env now limit st).2.succeeded
      = (runJobs env now (st.docs, st.jobs, ⟨0, 0, 0⟩)
          (dequeue_batch st.jobs limit)).2.2.succeeded := rfl
  have hf : (run_index_worker env now limit st).2.failed
      = (runJobs env now (st.docs, st.jobs, ⟨0, 0, 0⟩)
          (dequeue_batch st.jobs limit)).2.2.failed := rfl
  have h1 : (run_index_worker env now limit st).2.processed
      = ((dequeue_batch st.jobs limit).filter
          (fun j => (findDoc st.docs j.document_id).isSome)).length := by
    rw [hp, hc.1]
    try simp only []
    omega
  have h2 : (run_index_worker env now limit st).2.succeeded
      + (run_index_worker env now limit st).2.failed
      = (dequeue_batch st.jobs limit).length := by
    rw [hs, hf, hc.2]
    try simp only []
    omega
  refine ⟨h1, h2, ?_⟩
  rw [h1, h2]
  constructor
  · intro hlen j hj
    have hsub := List.filter_sublist (p := fun j =>
      (findDoc st.docs j.document_id).isSome) (dequeue_batch st.jobs limit)
    have heq := hsub.eq_of_length hlen
    have : j ∈ (dequeue_batch st.jobs limit).filter
        (fun j => (findDoc st.docs j.document_id).isSome) := by
      rw [heq]; exact hj
    exact (List.mem_filter.mp this).2
  · intro h
    rw [List.filter_eq_self.mpr h]

/-- C7: for every catalog Document with status INDEXED whose expected
vector-collection name (the stored pointer, or the name recomputed from the
source path when the pointer is missing) is absent from the live collection
set, the reconciliation pass enqueues a REINDEX job for it while leaving the
document's file_size, checksum and mtime equal to their prior values. -/
theorem index_drift_frame_effect (now : Nat) (collections : List String)
    (disk : List FileMeta) (st : DBState) (d : Document)
    (hwf : WF st) (hd : d ∈ st.docs) (hst : d.status = .indexed)
    (habs : collections.contains (expectedCollection d) = false) :
    (∃ j ∈ (reconcile now collections disk st).1.jobs.drop st.jobs.length,
        j.document_id = d.id ∧ j.job_type = .reindex ∧ j.job_status = .queued)
    ∧ (findDoc (reconcile now collections disk st).1.docs d.id).map
        (fun x => (x.file_size, x.checksum, x.mtime))
      = some (d.file_size, d.checksum, d.mtime) := by
  have hdr : driftB collections d = true := driftB_true_of hst habs
  constructor
  · have hedr : (⟨d.id, d.source_path, d.file_size, d.mtime, d.checksum⟩
        : ReindexEntry) ∈ toDriftList collections st.docs :=
      List.mem_filterMap.mpr ⟨d, hd, driftEntry_pos hdr⟩
    have heTR : (⟨d.id, d.source_path, d.file_size, d.mtime, d.checksum⟩
        : ReindexEntry) ∈ reconTR collections disk st :=
      List.mem_append_right _ hedr
    rcases reindexJobsFrom_mem now (reconTR collections disk st)
      (st.nextJobId + (reconTI disk st).length) _ heTR with ⟨j, hj, h1, h2, h3⟩
    refine ⟨j, ?_, h1, h2, h3⟩
    rw [reconcile_jobs_drop]
    exact List.mem_append_right _ (List.mem_append_left _ hj)
  · rw [reconcile_findDoc hwf.ids_nodup hd]
    have hhits := @TR_hits now collections disk st d hwf hd
    rw [if_pos hdr] at hhits
    have hframe := deleteFoldDoc_frame now (reconTD disk st)
      (reindexFoldDoc now (reconTR collections disk st) d)
    have hsz : (reindexFoldDoc now (reconTR collections disk st) d).file_size
        = d.file_size := by
      rw [reindexFoldDoc_eq_filter, hhits, List.foldl_append]
      rfl
    have hck : (reindexFoldDoc now (reconTR collections disk st) d).checksum
        = d.checksum := by
      rw [reindexFoldDoc_eq_filter, hhits, List.foldl_append]
      rfl
    have hmt : (reindexFoldDoc now (reconTR collections disk st) d).mtime
        = d.mtime := by
      rw [reindexFoldDoc_eq_filter, hhits, List.foldl_append]
      rfl
    show some _ = _
    rw [Option.some_inj]
    show ((docAfterPass now (reconTR collections disk st) (reconTD disk st)
        d).file_size, _, _) = _
    unfold docAfterPass
    rw [hframe.2.2.2.1, hframe.2.2.2.2.2.1, hframe.2.2.2.2.1, hsz, hck, hmt]

/-- Witness for C7 at a concrete state: an INDEXED document whose stored
collection name is absent from the (empty) live set gets a queued REINDEX
job and keeps its fingerprint fields. -/
theorem index_drift_frame_effect_witness :
    (∃ j ∈ (reconcile 4 [] []
          { docs := [⟨0, "u/a.pdf", none, 1, 0, "c1", .indexed, some "X", 2, 0, 0⟩],
            jobs := [], nextDocId := 1, nextJobId := 0 }).1.jobs.drop 0,
        j.document_id = 0 ∧ j.job_type = .reindex ∧ j.job_status = .queued)
    ∧ (findDoc (reconcile 4 [] []
          { docs := [⟨0, "u/a.pdf", none, 1, 0, "c1", .indexed, some "X", 2, 0, 0⟩],
            jobs := [], nextDocId := 1, nextJobId := 0 }).1.docs 0).map
        (fun x => (x.file_size, x.checksum, x.mtime))
      = some (1, "c1", 0) :=
  index_drift_frame_effect 4 [] []
    { docs := [⟨0, "u/a.pdf", none, 1, 0, "c1", .indexed, some "X", 2, 0, 0⟩],
      jobs := [], nextDocId := 1, nextJobId := 0 }
    ⟨0, "u/a.pdf", none, 1, 0, "c1", .indexed, some "X", 2, 0, 0⟩
    ⟨by decide, by decide, by decide, by decide⟩ (by decide) rfl rfl

/-- C9: path uniqueness.  A reconcile pass preserves pairwise distinctness of
catalog source paths (it creates rows only for paths absent from the
catalog); the worker never creates or re-keys document rows; and the
database's unique constraint on `source_path` rejects an insert whose path
already has a (non-deleted) row. -/
theorem path_uniqueness_invariant :
    (∀ (now : Nat) (collections : List String) (disk : List FileMeta)
        (st : DBState),
        disk.Pairwise (fun a b => a.source_path ≠ b.source_path) →
        st.docs.Pairwise (fun a b => a.source_path ≠ b.source_path) →
        (reconcile now collections disk st).1.docs.Pairwise
          (fun a b => a.source_path ≠ b.source_path))
    ∧ (∀ (env : WorkerEnv) (now : Nat) (docs : List Document)
        (jobs : List IndexJob) (c : WorkerCounts) (L : List IndexJob),
        ((runJobs env now (docs, jobs, c) L).1).map (fun d => (d.id, d.source_path))
          = docs.map (fun d => (d.id, d.source_path)))
    ∧ (∀ (docs : List Document) (d : Document),
        (∃ d0 ∈ docs, d0.source_path = d.source_path ∧ d0.status ≠ .deleted) →
        insertDocumentUnique docs d = none) := by
  refine ⟨fun now collections disk st hdisk hp =>
      reconcile_paths_nodup hdisk hp,
    fun env now docs jobs c L => runJobs_docs_keys env now L docs jobs c,
    ?_⟩
  rintro docs d ⟨d0, hd0, hp, _⟩
  unfold insertDocumentUnique
  rw [if_pos (List.any_eq_true.mpr ⟨d0, hd0, by simp [hp]⟩)]

/-- Witness for C9: a one-file catalog; the pass keeps paths distinct, the
worker keeps keys fixed, and a duplicate-path insert is rejected. -/
theorem path_uniqueness_invariant_witness :
    (reconcile 1 [] [⟨"u/a.pdf", 1, 0, "c1"⟩]
        { docs := [⟨0, "u/b.pdf", none, 1, 0, "c2", .pending, none, 1, 0, 0⟩],
          jobs := [], nextDocId := 1, nextJobId := 0 }).1.docs.Pairwise
      (fun a b => a.source_path ≠ b.source_path)
    ∧ insertDocumentUnique
        [⟨0, "u/b.pdf", none, 1, 0, "c2", .pending, none, 1, 0, 0⟩]
        ⟨5, "u/b.pdf", none, 2, 0, "c3", .pending, none, 1, 0, 0⟩ = none :=
  ⟨path_uniqueness_invariant.1 1 [] [⟨"u/a.pdf", 1, 0, "c1"⟩]
      { docs := [⟨0, "u/b.pdf", none, 1, 0, "c2", .pending, none, 1, 0, 0⟩],
        jobs := [], nextDocId := 1, nextJobId := 0 } (by decide) (by decide),
   path_uniqueness_invariant.2.2
      [⟨0, "u/b.pdf", none, 1, 0, "c2", .pending, none, 1, 0, 0⟩]
      ⟨5, "u/b.pdf", none, 2, 0, "c3", .pending, none, 1, 0, 0⟩
      ⟨⟨0, "u/b.pdf", none, 1, 0, "c2", .pending, none, 1, 0, 0⟩,
        by decide, rfl, by decide⟩⟩

/-- C8: `dequeue_batch` returns at most `limit` jobs, all QUEUED, ordered by
creation time ascending; in particular for three queued jobs with strictly
increasing creation times, a limit of 2 returns exactly the two oldest, in
order. -/
theorem dequeue_batch_fifo :
    (∀ (jobs : List IndexJob) (limit : Nat),
        (dequeue_batch jobs limit).length ≤ limit
        ∧ (∀ j ∈ dequeue_batch jobs limit, j.job_status = .queued)
        ∧ (dequeue_batch jobs limit).Pairwise
            (fun a b => a.created_at ≤ b.created_at))
    ∧ (∀ j1 j2 j3 : IndexJob,
        j1.job_status = .queued → j2.job_status = .queued →
        j3.job_status = .queued →
        j1.created_at < j2.created_at → j2.created_at < j3.created_at →
        dequeue_batch [j1, j2, j3] 2 = [j1, j2]) := by
  refine ⟨dequeue_batch_spec, ?_⟩
  intro j1 j2 j3 h1 h2 h3 h12 h23
  unfold dequeue_batch
  have hfil : [j1, j2, j3].filter (fun j => j.job_status == .queued)
      = [j1, j2, j3] := by
    rw [List.filter_eq_self]
    intro a ha
    rcases List.mem_cons.mp ha with rfl | ha2
    · simp [h1]
    rcases List.mem_cons.mp ha2 with rfl | ha3
    · simp [h2]
    rcases List.mem_cons.mp ha3 with rfl | ha4
    · simp [h3]
    cases ha4
  rw [hfil]
  have hsorted : [j1, j2, j3].Pairwise
      (fun a b : IndexJob => (a.created_at ≤ b.created_at : Bool)) := by
    refine List.pairwise_cons.mpr ⟨?_, List.pairwise_cons.mpr ⟨?_, ?_⟩⟩
    · intro b hb
      rcases List.mem_cons.mp hb with rfl | hb2
      · simp; omega
      rcases List.mem_cons.mp hb2 with rfl | hb3
      · simp; omega
      cases hb3
    · intro b hb
      rcases List.mem_cons.mp hb with rfl | hb2
      · simp; omega
      cases hb2
    · exact List.pairwise_cons.mpr
        ⟨fun b hb => absurd hb (List.not_mem_nil b), List.Pairwise.nil⟩
  rw [List.mergeSort_of_sorted hsorted]
  rfl

/-- Witness for C8: three concrete queued jobs at times 1 < 2 < 3; a batch of
two dequeues the first two, in order. -/
theorem dequeue_batch_fifo_witness :
    dequeue_batch [(⟨0, 0, .index, .queued, none, 1, none⟩ : IndexJob),
        ⟨1, 1, .index, .queued, none, 2, none⟩,
        ⟨2, 2, .index, .queued, none, 3, none⟩] 2
      = [⟨0, 0, .index, .queued, none, 1, none⟩,
         ⟨1, 1, .index, .queued, none, 2, none⟩] :=
  dequeue_batch_fifo.2 ⟨0, 0, .index, .queued, none, 1, none⟩
    ⟨1, 1, .index, .queued, none, 2, none⟩
    ⟨2, 2, .index, .queued, none, 3, none⟩
    rfl rfl rfl (by decide) (by decide)

/-- C1 (counterexample to the claim as stated): a document that is both
content-changed and index-drifted in the same pass gets two REINDEX entries,
the second of which restores the old fingerprint, so the second run enqueues
one more job instead of zero. -/
theorem reconcile_idempotence_cex :
    (reconcile 2 [] [⟨"u/a.pdf", 2, 7, "c2"⟩]
        (reconcile 1 [] [⟨"u/a.pdf", 2, 7, "c2"⟩]
          { docs := [⟨0, "u/a.pdf", none, 1, 0, "c1", .indexed, some "X", 2, 0, 0⟩],
            jobs := [], nextDocId := 1, nextJobId := 0 }).1).2.enqueued = 1 := by
  decide

/-- C1 (amended): the reconciliation pass is idempotent provided no catalog
document is simultaneously content-changed and index-drifted in the first
pass: under that proviso a second pass over the same disk and collection set
returns the state unchanged, creates zero documents and enqueues zero jobs. -/
theorem reconcile_idempotent_of_no_changed_drift
    (now1 now2 : Nat) (collections : List String) (disk : List FileMeta)
    (st : DBState)
    (hdisk : disk.Pairwise (fun a b => a.source_path ≠ b.source_path))
    (hwf : WF st) (hdisj : noChangedDrift collections disk st) :
    (reconcile now2 collections disk (reconcile now1 collections disk st).1).1
        = (reconcile now1 collections disk st).1
    ∧ (reconcile now2 collections disk
        (reconcile now1 collections disk st).1).2.created = 0
    ∧ (reconcile now2 collections disk
        (reconcile now1 collections disk st).1).2.enqueued = 0 := by
  obtain ⟨hA, hB, hC, hD⟩ :=
    @reconcile_second_lists_empty now1 collections disk st hdisk hwf hdisj
  have hTI : reconTI disk (reconcile now1 collections disk st).1 = [] := hA
  have hTR : reconTR collections disk (reconcile now1 collections disk st).1 = [] := by
    unfold reconTR
    rw [hB, hC]
    rfl
  have hTD : reconTD disk (reconcile now1 collections disk st).1 = [] := hD
  refine ⟨?_, ?_, ?_⟩
  · rw [reconcile_fst now2 collections disk (reconcile now1 collections disk st).1,
        hTI, hTR, hTD]
    have hid : (reconcile now1 collections disk st).1.docs.map
        (docAfterPass now2 [] []) = (reconcile now1 collections disk st).1.docs := by
      have h0 : ∀ x : Document, docAfterPass now2 [] [] x = x := fun x => rfl
      calc (reconcile now1 collections disk st).1.docs.map (docAfterPass now2 [] [])
          = (reconcile now1 collections disk st).1.docs.map id :=
            List.map_congr_left fun x _ => h0 x
        _ = _ := List.map_id _
    simp only [newDocsFrom, newIndexJobsFrom, reindexJobsFrom, deleteJobsFrom,
      List.append_nil, List.nil_append, List.length_nil, Nat.add_zero, hid]
  · rw [reconcile_snd now2 collections disk (reconcile now1 collections disk st).1]
    simp [hTI]
  · rw [reconcile_snd now2 collections disk (reconcile now1 collections disk st).1]
    simp [hTI, hTR, hTD]

/-- Witness for C1 (amended) at a concrete state: an empty catalog and one
new file; the second pass is a no-op. -/
theorem reconcile_idempotent_witness :
    (reconcile 2 [] [⟨"u/a.pdf", 1, 0, "c1"⟩]
        (reconcile 1 [] [⟨"u/a.pdf", 1, 0, "c1"⟩]
          { docs := [], jobs := [], nextDocId := 0, nextJobId := 0 }).1).1
        = (reconcile 1 [] [⟨"u/a.pdf", 1, 0, "c1"⟩]
          { docs := [], jobs := [], nextDocId := 0, nextJobId := 0 }).1
    ∧ (reconcile 2 [] [⟨"u/a.pdf", 1, 0, "c1"⟩]
        (reconcile 1 [] [⟨"u/a.pdf", 1, 0, "c1"⟩]
          { docs := [], jobs := [], nextDocId := 0, nextJobId := 0 }).1).2.created = 0
    ∧ (reconcile 2 [] [⟨"u/a.pdf", 1, 0, "c1"⟩]
        (reconcile 1 [] [⟨"u/a.pdf", 1, 0, "c1"⟩]
          { docs := [], jobs := [], nextDocId := 0, nextJobId := 0 }).1).2.enqueued
        = 0 :=
  reconcile_idempotent_of_no_changed_drift 1 2 [] [⟨"u/a.pdf", 1, 0, "c1"⟩]
    { docs := [], jobs := [], nextDocId := 0, nextJobId := 0 }
    (by decide) ⟨by decide, by decide, by decide, by decide⟩
    (by intro d hd; cases hd)

/-- C2 (counterexample to the claim as stated): a file whose path is present
only under a DELETED catalog record (same fingerprint) is not treated as new:
the pass creates no document and enqueues no job, leaving the state
untouched. -/
theorem new_file_detection_deleted_cex :
    (reconcile 1 [] [⟨"u/a.pdf", 1, 7, "c1"⟩]
        { docs := [⟨0, "u/a.pdf", none, 1, 0, "c1", .deleted, none, 3, 0, 0⟩],
          jobs := [], nextDocId := 1, nextJobId := 0 }).1
      = { docs := [⟨0, "u/a.pdf", none, 1, 0, "c1", .deleted, none, 3, 0, 0⟩],
          jobs := [], nextDocId := 1, nextJobId := 0 } := by
  decide

/-- C2 (amended): for every scanned file with the accepted extension whose
path has no catalog record at all, the pass creates exactly one PENDING
document (version 1, no collection) at that path and enqueues exactly one
QUEUED INDEX job for it.  A DELETED record at the path disqualifies it from
new-file treatment (it falls under change detection instead). -/
theorem new_file_detection_of_absent_path (now : Nat) (collections : List String)
    (disk : List FileMeta) (st : DBState) (m : FileMeta)
    (hdisk : disk.Pairwise (fun a b => a.source_path ≠ b.source_path))
    (hwf : WF st) (hm : m ∈ disk) (hpdf : isPdf m = true)
    (habsent : findByPath st.docs m.source_path = none) :
    ∃ did, st.nextDocId ≤ did
      ∧ (reconcile now collections disk st).1.docs.filter
          (fun x => x.source_path == m.source_path)
        = [{ id := did, source_path := m.source_path, filename := none,
             file_size := m.file_size, mtime := m.mtime, checksum := m.checksum,
             status := .pending, chroma_collection := none, version := 1,
             created_at := now, updated_at := now }]
      ∧ ((reconcile now collections disk st).1.jobs.filter
            (fun j => j.document_id == did)).map
          (fun j => (j.job_type, j.job_status))
        = [(.index, .queued)] := by
  have hmlf : m ∈ lfiles disk := List.mem_filter.mpr ⟨hm, hpdf⟩
  have hTIm : m ∈ reconTI disk st := by
    unfold reconTI toIndexList
    exact List.mem_filter.mpr ⟨hmlf, by simp [habsent]⟩
  have hTInodup : (reconTI disk st).Pairwise
      (fun a b => a.source_path ≠ b.source_path) :=
    List.Pairwise.sublist (reconTI_sublist disk st) (lfiles_paths_nodup hdisk)
  rcases newDocsFrom_filter_at now (reconTI disk st) st.nextDocId m hTInodup hTIm
    with ⟨k, hk, hnewfil⟩
  refine ⟨st.nextDocId + k, by omega, ?_, ?_⟩
  · rw [reconcile_docs]
    have hpf : ((fun x : Document => x.source_path == m.source_path)
          ∘ docAfterPass now (reconTR collections disk st) (reconTD disk st))
        = fun x : Document => x.source_path == m.source_path := by
      funext x
      simp [Function.comp, (docAfterPass_frame now _ _ x).2.1]
    rw [List.filter_map, hpf, List.filter_append]
    have hold : st.docs.filter (fun x => x.source_path == m.source_path) = [] := by
      rw [List.filter_eq_nil_iff]
      intro x hx
      simpa using findByPath_none habsent x hx
    rw [hold, hnewfil, List.nil_append, List.map_cons, List.map_nil]
    have hfresh := @docAfterPass_fresh_of_wf now collections disk st hwf
      (mkNewDoc now (st.nextDocId + k) m) (by simp [mkNewDoc])
    rw [hfresh]
    rfl
  · rw [reconcile_jobs]
    simp only [List.filter_append, List.map_append]
    have h0 : st.jobs.filter (fun j => j.document_id == st.nextDocId + k) = [] := by
      rw [List.filter_eq_nil_iff]
      intro j hj
      have := hwf.job_refs_bound j hj
      simp only [beq_iff_eq]
      omega
    have hA := newIndexJobsFrom_filter_at now (reconTI disk st) st.nextJobId
      st.nextDocId k hk
    have hB : (reconTR collections disk st).filter
        (fun e => e.docId == st.nextDocId + k) = [] := by
      rw [List.filter_eq_nil_iff]
      intro e he
      rcases reconTR_ids he with ⟨y, hy, hyid⟩
      have := hwf.ids_bound y hy
      simp only [beq_iff_eq]
      omega
    have hC : (reconTD disk st).filter (fun dd => dd.id == st.nextDocId + k)
        = [] := by
      rw [List.filter_eq_nil_iff]
      intro dd hdd
      have := hwf.ids_bound dd (reconTD_mem hdd)
      simp only [beq_iff_eq]
      omega
    rw [h0, hA]
    rw [reindexJobsFrom_filter_map now (reconTR collections disk st)
      (st.nextJobId + (reconTI disk st).length) (st.nextDocId + k), hB]
    rw [deleteJobsFrom_filter_map now (reconTD disk st)
      (st.nextJobId + (reconTI disk st).length
        + (reconTR collections disk st).length) (st.nextDocId + k), hC]
    rfl

/-- Witness for C2 (amended): one file, empty catalog. -/
theorem new_file_detection_witness :
    ∃ did, (0 : Nat) ≤ did
      ∧ (reconcile 3 [] [⟨"u/a.pdf", 1, 0, "c1"⟩]
          { docs := [], jobs := [], nextDocId := 0, nextJobId := 0 }).1.docs.filter
          (fun x => x.source_path == "u/a.pdf")
        = [{ id := did, source_path := "u/a.pdf", filename := none,
             file_size := 1, mtime := 0, checksum := "c1",
             status := .pending, chroma_collection := none, version := 1,
             created_at := 3, updated_at := 3 }]
      ∧ ((reconcile 3 [] [⟨"u/a.pdf", 1, 0, "c1"⟩]
          { docs := [], jobs := [], nextDocId := 0, nextJobId := 0 }).1.jobs.filter
            (fun j => j.document_id == did)).map
          (fun j => (j.job_type, j.job_status))
        = [(.index, .queued)] :=
  new_file_detection_of_absent_path 3 [] [⟨"u/a.pdf", 1, 0, "c1"⟩]
    { docs := [], jobs := [], nextDocId := 0, nextJobId := 0 }
    ⟨"u/a.pdf", 1, 0, "c1"⟩ (by decide)
    ⟨by decide, by decide, by decide, by decide⟩ (by decide) (by decide) (by decide)

/-- C3 (counterexample to the claim as stated): for a document that is also
index-drifted, change detection enqueues two REINDEX jobs (not exactly one)
and the drift entry overwrites the updated fields back to the old values, so
the stored checksum is not updated. -/
theorem change_detection_double_job_cex :
    ((reconcile 1 [] [⟨"u/a.pdf", 2, 7, "c2"⟩]
        { docs := [⟨0, "u/a.pdf", none, 1, 0, "c1", .indexed, some "X", 2, 0, 0⟩],
          jobs := [], nextDocId := 1, nextJobId := 0 }).1.jobs.filter
        (fun j => j.document_id == 0 && j.job_type == .reindex)).length = 2
    ∧ (findDoc (reconcile 1 [] [⟨"u/a.pdf", 2, 7, "c2"⟩]
        { docs := [⟨0, "u/a.pdf", none, 1, 0, "c1", .indexed, some "X", 2, 0, 0⟩],
          jobs := [], nextDocId := 1, nextJobId := 0 }).1.docs 0).map
        (fun x => x.checksum)
      = some "c1" := by
  decide

/-- C3 (amended): for every catalog document that is not index-drifted and
whose file is still on disk: if the recomputed size or checksum differs, the
pass updates size/mtime/checksum, sets status REINDEXING, and enqueues
exactly one REINDEX job for it; if size and checksum are unchanged (mtime
alone differing), the row is untouched and no job for it is enqueued. -/
theorem change_detection_of_not_drifted (now : Nat) (collections : List String)
    (disk : List FileMeta) (st : DBState) (d : Document) (m : FileMeta)
    (hdisk : disk.Pairwise (fun a b => a.source_path ≠ b.source_path))
    (hwf : WF st) (hd : d ∈ st.docs) (hm : m ∈ disk) (hpdf : isPdf m = true)
    (hpath : m.source_path = d.source_path)
    (hnodrift : driftB collections d = false) :
    ((d.file_size ≠ m.file_size ∨ d.checksum ≠ m.checksum) →
       findDoc (reconcile now collections disk st).1.docs d.id
         = some { d with
             file_size := m.file_size, mtime := m.mtime, checksum := m.checksum,
             status := .reindexing, updated_at := now }
       ∧ (((reconcile now collections disk st).1.jobs.drop st.jobs.length).filter
            (fun j => j.document_id == d.id)).map
          (fun j => (j.job_type, j.job_status))
         = [(.reindex, .queued)])
    ∧ (d.file_size = m.file_size → d.checksum = m.checksum →
       findDoc (reconcile now collections disk st).1.docs d.id = some d
       ∧ (((reconcile now collections disk st).1.jobs.drop st.jobs.length).filter
            (fun j => j.document_id == d.id)).map
          (fun j => (j.job_type, j.job_status))
         = []) := by
  have hmlf : m ∈ lfiles disk := List.mem_filter.mpr ⟨hm, hpdf⟩
  have hfil : (lfiles disk).filter (fun m0 => m0.source_path == d.source_path)
      = [m] := by
    rw [← hpath]
    exact filter_key_singleton (f := fun m0 : FileMeta => m0.source_path)
      (lfiles_paths_nodup hdisk) hmlf
  have hhits0 := @TR_hits now collections disk st d hwf hd
  rw [hfil, if_neg (by simp [hnodrift]), List.append_nil] at hhits0
  have hod : onDisk (lfiles disk) d.source_path = true := by
    rw [← hpath]
    exact onDisk_of_mem hmlf
  have hTDnil : (reconTD disk st).filter (fun z => z.id == d.id) = [] := by
    show (toDeleteList st.docs (lfiles disk)).filter _ = []
    rw [@delete_hits st.docs (lfiles disk) d hwf.ids_nodup hd]
    rw [if_neg (by simp [hod])]
  have hnodel : ∀ dd ∈ reconTD disk st, dd.id ≠ d.id := by
    intro dd hdd
    have := List.filter_eq_nil_iff.mp hTDnil dd hdd
    simpa using this
  have hjobsplit : ∀ i : Nat,
      (((reconcile now collections disk st).1.jobs.drop st.jobs.length).filter
          (fun j => j.document_id == i)).map (fun j => (j.job_type, j.job_status))
        = ((newIndexJobsFrom now st.nextJobId st.nextDocId
              (reconTI disk st)).filter (fun j => j.document_id == i)).map
            (fun j => (j.job_type, j.job_status))
          ++ (((reconTR collections disk st).filter (fun e => e.docId == i)).map
              (fun _ => (IndexJobType.reindex, IndexJobStatus.queued))
          ++ ((reconTD disk st).filter (fun dd => dd.id == i)).map
              (fun _ => (IndexJobType.delete, IndexJobStatus.queued))) := by
    intro i
    rw [reconcile_jobs_drop]
    simp only [List.filter_append, List.map_append]
    rw [reindexJobsFrom_filter_map, deleteJobsFrom_filter_map]
  have hnew0 : (newIndexJobsFrom now st.nextJobId st.nextDocId
      (reconTI disk st)).filter (fun j => j.document_id == d.id) = [] := by
    rw [List.filter_eq_nil_iff]
    intro j hj
    have := (newIndexJobsFrom_spec now (reconTI disk st) st.nextJobId
      st.nextDocId j hj).2.2
    have hb := hwf.ids_bound d hd
    simp only [beq_iff_eq]
    omega
  constructor
  · intro hch
    have hchB : changedB d m = true := by
      unfold changedB
      rcases hch with h | h <;> simp [h]
    have hhits : (reconTR collections disk st).filter (fun e => e.docId == d.id)
        = [⟨d.id, m.source_path, m.file_size, m.mtime, m.checksum⟩] := by
      rw [hhits0, List.filterMap_cons_some (changedEntryFor_pos hchB),
          List.filterMap_nil]
    constructor
    · rw [reconcile_findDoc hwf.ids_nodup hd]
      have hdAP : docAfterPass now (reconTR collections disk st)
          (reconTD disk st) d
          = { d with
              file_size := m.file_size, mtime := m.mtime, checksum := m.checksum,
              status := .reindexing, updated_at := now } := by
        unfold docAfterPass
        rw [@reindexFoldDoc_of_one_hit now _ _ _ hhits]
        exact deleteFoldDoc_of_no_hit hnodel
      rw [hdAP]
    · rw [hjobsplit d.id, hnew0, hhits, hTDnil]
      rfl
  · intro hsz hck
    have hchB : changedB d m = false := by
      unfold changedB
      simp [hsz, hck]
    have hhits : (reconTR collections disk st).filter (fun e => e.docId == d.id)
        = [] := by
      rw [hhits0, List.filterMap_cons_none (changedEntryFor_neg hchB),
          List.filterMap_nil]
    constructor
    · rw [reconcile_findDoc hwf.ids_nodup hd]
      have hdAP : docAfterPass now (reconTR collections disk st)
          (reconTD disk st) d = d := by
        unfold docAfterPass
        rw [@reindexFoldDoc_of_no_hit now _ _ hhits]
        exact deleteFoldDoc_of_no_hit hnodel
      rw [hdAP]
    · rw [hjobsplit d.id, hnew0, hhits, hTDnil]
      rfl

/-- Witness for C3 (amended) at a concrete state: an INDEXED document whose
collection is live and whose file changed gets its fields updated and exactly
one queued REINDEX job. -/
theorem change_detection_witness :
    findDoc (reconcile 6 ["document_" ++ uuid5 "u/a.pdf"] [⟨"u/a.pdf", 2, 7, "c2"⟩]
        { docs := [⟨0, "u/a.pdf", none, 1, 0, "c1", .indexed, none, 2, 0, 0⟩],
          jobs := [], nextDocId := 1, nextJobId := 0 }).1.docs 0
      = some ⟨0, "u/a.pdf", none, 2, 7, "c2", .reindexing, none, 2, 0, 6⟩
    ∧ (((reconcile 6 ["document_" ++ uuid5 "u/a.pdf"] [⟨"u/a.pdf", 2, 7, "c2"⟩]
        { docs := [⟨0, "u/a.pdf", none, 1, 0, "c1", .indexed, none, 2, 0, 0⟩],
          jobs := [], nextDocId := 1, nextJobId := 0 }).1.jobs.drop 0).filter
        (fun j => j.document_id == 0)).map (fun j => (j.job_type, j.job_status))
      = [(.reindex, .queued)] :=
  (change_detection_of_not_drifted 6 ["document_" ++ uuid5 "u/a.pdf"]
    [⟨"u/a.pdf", 2, 7, "c2"⟩]
    { docs := [⟨0, "u/a.pdf", none, 1, 0, "c1", .indexed, none, 2, 0, 0⟩],
      jobs := [], nextDocId := 1, nextJobId := 0 }
    ⟨0, "u/a.pdf", none, 1, 0, "c1", .indexed, none, 2, 0, 0⟩
    ⟨"u/a.pdf", 2, 7, "c2"⟩ (by decide)
    ⟨by decide, by decide, by decide, by decide⟩ (by decide) (by decide)
    (by decide) rfl (by decide)).1 (by decide)

end RagIndex
